import Mathlib

/-!
# MyApp controller: reconciliation loop

A shallow embedding of `internal/controller/myapp_controller.go`.

* The cluster API client embedded in `MyAppReconciler` is an explicit state,
  `World`: the stored objects of the three kinds the controller touches, the
  outcomes the store is going to give to the coming calls, and the trace of the
  calls issued so far.
* `Reconcile` and its helpers are state-passing functions on `World`, one
  definition per source function; `Reconcile` is cut at the source's own
  comment headings into `Reconcile` (fetch, status initialisation),
  `reconcileFinalizer`, `reconcileMarked`, `reconcileDeletion`,
  `reconcileDeployment` and `reconcileService`, each calling the next.
* A call fails either because the store says so whatever it holds (a `Fault`
  from the world's list of coming outcomes) or because of what it holds
  (`NotFound`, `AlreadyExists`); a failed call changes nothing in the store.
* The MyApp kind has the status subresource: `Update` leaves the stored status
  alone and `Status().Update` writes the status only.
* Go `int32` values are `Int`; no arithmetic is done on them. A Deployment read
  from the store has a replica count (the pointer `Spec.Replicas` is not nil).
-/

set_option linter.dupNamespace false

namespace MyAppController

/-! ## Data model -/

/-- A `types.NamespacedName`. -/
structure Key where
  Namespace : String
  Name : String
deriving DecidableEq, Repr

/-- The three values of `metav1.ConditionStatus`. -/
inductive ConditionStatus where
  | ConditionTrue
  | ConditionFalse
  | ConditionUnknown
deriving DecidableEq, Repr

/-- A `metav1.Condition`; `LastTransitionTime = 0` is Go's zero time. -/
structure Condition where
  CondType : String
  Status : ConditionStatus
  Reason : String
  Message : String
  LastTransitionTime : Nat
deriving DecidableEq, Repr

/-- An `intstr.IntOrString`; its zero value is `int 0`. -/
inductive IntOrString where
  | int (v : Int)
  | str (s : String)
deriving DecidableEq, Repr

/-- One entry of `MyApp.Spec.Ports` (the fields `getPorts` reads). -/
structure PortSpec where
  Port : Int
  TargetPort : IntOrString
  NodePort : Int
deriving DecidableEq, Repr

structure MyAppSpec where
  Size : Int
  Image : String
  Ports : List PortSpec
deriving DecidableEq, Repr

structure MyAppStatus where
  Conditions : List Condition
deriving DecidableEq, Repr

/-- The custom resource `echohv1alpha1.MyApp`. -/
structure MyApp where
  Name : String
  Namespace : String
  UID : String
  DeletionTimestamp : Option Nat
  Finalizers : List String
  Spec : MyAppSpec
  Status : MyAppStatus
deriving DecidableEq, Repr

/-- A `metav1.OwnerReference` as `SetControllerReference` writes it. -/
structure OwnerReference where
  Kind : String
  Name : String
  UID : String
  Controller : Bool
  BlockOwnerDeletion : Bool
deriving DecidableEq, Repr

structure ContainerPort where
  ContainerPort : Int
deriving DecidableEq, Repr

structure Container where
  Name : String
  Image : String
  ImagePullPolicy : String
  Ports : List ContainerPort
deriving DecidableEq, Repr

structure PodTemplateSpec where
  Name : String
  Namespace : String
  Labels : List (String × String)
  Containers : List Container
deriving DecidableEq, Repr

structure DeploymentSpec where
  Replicas : Int
  Selector : List (String × String)
  Template : PodTemplateSpec
deriving DecidableEq, Repr

/-- An `appsv1.Deployment`. -/
structure Deployment where
  Name : String
  Namespace : String
  OwnerReferences : List OwnerReference
  Spec : DeploymentSpec
deriving DecidableEq, Repr

structure ServicePort where
  Port : Int
  NodePort : Int
  TargetPort : IntOrString
deriving DecidableEq, Repr

structure ServiceSpec where
  ServiceType : String
  Selector : List (String × String)
  Ports : List ServicePort
deriving DecidableEq, Repr

/-- A `corev1.Service`. -/
structure Service where
  Name : String
  Namespace : String
  OwnerReferences : List OwnerReference
  Spec : ServiceSpec
deriving DecidableEq, Repr

def MyApp.key (a : MyApp) : Key := ⟨a.Namespace, a.Name⟩

def Deployment.key (d : Deployment) : Key := ⟨d.Namespace, d.Name⟩

def Service.key (s : Service) : Key := ⟨s.Namespace, s.Name⟩

/-- Go's zero value of `appsv1.Deployment`, what `&appsv1.Deployment{}` holds
before a successful `Get` (`Replicas` is a nil pointer there, never read). -/
def Deployment.zero : Deployment :=
  { Name := "", Namespace := "", OwnerReferences := [],
    Spec := { Replicas := 0, Selector := [],
              Template := { Name := "", Namespace := "", Labels := [], Containers := [] } } }

/-! ## Errors, results, and the store -/

/-- The errors a pass can meet: the store's own (`apierrors`) and the one
`SetControllerReference` gives when the scheme does not know the owner. -/
inductive Err where
  | NotFound
  | AlreadyExists
  | Conflict
  | Forbidden
  | ServerTimeout
  | NoKindRegistered
deriving DecidableEq, Repr

/-- The failures the store can answer a call with whatever it holds
(optimistic-concurrency rejection, denial, backend failure). `NotFound` and
`AlreadyExists` are not among them: they follow from what the store holds. -/
inductive Fault where
  | Conflict
  | Forbidden
  | ServerTimeout
deriving DecidableEq, Repr

def Fault.toErr : Fault → Err
  | .Conflict => .Conflict
  | .Forbidden => .Forbidden
  | .ServerTimeout => .ServerTimeout

/-- The test `apierrors.IsNotFound`. -/
def IsNotFound : Err → Bool
  | .NotFound => true
  | _ => false

/-- The text of an error, for the `%s` of the condition messages. -/
def Err.text : Err → String
  | .NotFound => "not found"
  | .AlreadyExists => "already exists"
  | .Conflict => "the object has been modified"
  | .Forbidden => "forbidden"
  | .ServerTimeout => "server timeout"
  | .NoKindRegistered => "no kind is registered for the type"

deriving instance DecidableEq for Except

/-- A `ctrl.Result`; `RequeueAfter` is a `time.Duration` in nanoseconds. -/
structure Result where
  Requeue : Bool
  RequeueAfter : Nat
deriving DecidableEq, Repr

/-- The empty `ctrl.Result{}`. -/
def Result.empty : Result := ⟨false, 0⟩

/-- Go's `time.Minute`. -/
def Minute : Nat := 60 * 1000000000

/-- What `Reconcile` returns: `(ctrl.Result, error)`, `none` for a nil error. -/
abbrev Outcome := Result × Option Err

inductive Kind where
  | MyApp
  | Deployment
  | Service
deriving DecidableEq, Repr

/-- The object a call carries. -/
inductive Obj where
  | myapp (a : MyApp)
  | deployment (d : Deployment)
  | service (s : Service)
deriving DecidableEq, Repr

/-- One call on the client, with the error it returned (`none`: success). -/
inductive Call where
  | get (kind : Kind) (key : Key) (err : Option Err)
  | create (o : Obj) (err : Option Err)
  | update (o : Obj) (err : Option Err)
  | statusUpdate (a : MyApp) (err : Option Err)
  | delete (o : Obj) (err : Option Err)
deriving DecidableEq, Repr

/-- Every call but `Get` is a write. -/
def Call.isWrite : Call → Bool
  | .get _ _ _ => false
  | _ => true

/-- The store and its environment: the objects held, per kind; the outcome the
store gives to each coming call, in order (`none`, or a list that ran out:
the call goes through); the calls issued so far; the clock `time.Now` reads. -/
structure World where
  myapps : List MyApp
  deployments : List Deployment
  services : List Service
  faults : List (Option Fault)
  log : List Call
  now : Nat
deriving DecidableEq, Repr

/-- The object stored under `k`. -/
def lookup {α : Type} (keyOf : α → Key) (k : Key) (l : List α) : Option α :=
  l.find? (fun x => decide (keyOf x = k))

/-- The store without the object under `k`. -/
def remove {α : Type} (keyOf : α → Key) (k : Key) (l : List α) : List α :=
  l.filter (fun x => !decide (keyOf x = k))

/-- The store with `a` under `a`'s own key, in place of what was there. -/
def put {α : Type} (keyOf : α → Key) (a : α) (l : List α) : List α :=
  a :: remove keyOf (keyOf a) l

/-- The failure the store answers the next call with, if any. -/
def World.inject (w : World) : Option Err :=
  match w.faults with
  | some f :: _ => some f.toErr
  | _ => none

/-- The world once a call has been answered: its outcome is used up and the
call is on the trace. -/
def World.advance (w : World) (c : Call) : World :=
  { w with faults := w.faults.tail, log := w.log ++ [c] }

def World.withMyapps (w : World) (l : List MyApp) : World := { w with myapps := l }

def World.withDeployments (w : World) (l : List Deployment) : World :=
  { w with deployments := l }

def World.withServices (w : World) (l : List Service) : World := { w with services := l }

def MyApp.withStatus (a : MyApp) (st : MyAppStatus) : MyApp := { a with Status := st }

def MyApp.withFinalizers (a : MyApp) (fs : List String) : MyApp := { a with Finalizers := fs }

/-- The object sent by an `Update`, as the store keeps it: status and deletion
timestamp stay those of the stored object `s`. -/
def MyApp.asStored (a s : MyApp) : MyApp :=
  { a with Status := s.Status, DeletionTimestamp := s.DeletionTimestamp }

/-- The MyApps once `a` is written: an object under deletion whose last
finalizer is gone leaves the store. -/
def storeMyApp (a : MyApp) (l : List MyApp) : List MyApp :=
  if a.DeletionTimestamp.isSome && a.Finalizers.isEmpty then remove MyApp.key a.key l
  else put MyApp.key a l

/-- `r.Get` of a MyApp. -/
def GetMyApp (k : Key) (w : World) : Except Err MyApp × World :=
  match w.inject with
  | some e => (.error e, w.advance (.get .MyApp k (some e)))
  | none =>
    match lookup MyApp.key k w.myapps with
    | none => (.error .NotFound, w.advance (.get .MyApp k (some .NotFound)))
    | some a => (.ok a, w.advance (.get .MyApp k none))

/-- `r.Get` of a Deployment. -/
def GetDeployment (k : Key) (w : World) : Except Err Deployment × World :=
  match w.inject with
  | some e => (.error e, w.advance (.get .Deployment k (some e)))
  | none =>
    match lookup Deployment.key k w.deployments with
    | none => (.error .NotFound, w.advance (.get .Deployment k (some .NotFound)))
    | some d => (.ok d, w.advance (.get .Deployment k none))

/-- `r.Get` of a Service. -/
def GetService (k : Key) (w : World) : Except Err Service × World :=
  match w.inject with
  | some e => (.error e, w.advance (.get .Service k (some e)))
  | none =>
    match lookup Service.key k w.services with
    | none => (.error .NotFound, w.advance (.get .Service k (some .NotFound)))
    | some s => (.ok s, w.advance (.get .Service k none))

/-- `r.Status().Update` of a MyApp. The controller writes the status through
`Status()`, so the kind has the status subresource: it takes the status of the
object sent and nothing else; the answer is the object as stored. -/
def StatusUpdate (a : MyApp) (w : World) : Except Err MyApp × World :=
  match w.inject with
  | some e => (.error e, w.advance (.statusUpdate a (some e)))
  | none =>
    match lookup MyApp.key a.key w.myapps with
    | none => (.error .NotFound, w.advance (.statusUpdate a (some .NotFound)))
    | some s =>
      (.ok (s.withStatus a.Status),
       (w.advance (.statusUpdate a none)).withMyapps
         (put MyApp.key (s.withStatus a.Status) w.myapps))

/-- `r.Update` of a MyApp: the main resource takes everything of the object
sent but its status and deletion timestamp, which stay as stored; an object
under deletion whose last finalizer is gone leaves the store. The answer is the
object as stored. Validation of the object sent is not part of this store: it
accepts, as controller-runtime's fake client does, an `Update` that adds a
finalizer to an object under deletion; the refusal an API server gives there
is one of the failures of `Fault` (`Forbidden`). -/
def UpdateMyApp (a : MyApp) (w : World) : Except Err MyApp × World :=
  match w.inject with
  | some e => (.error e, w.advance (.update (.myapp a) (some e)))
  | none =>
    match lookup MyApp.key a.key w.myapps with
    | none => (.error .NotFound, w.advance (.update (.myapp a) (some .NotFound)))
    | some s =>
      (.ok (a.asStored s),
       (w.advance (.update (.myapp a) none)).withMyapps (storeMyApp (a.asStored s) w.myapps))

/-- `r.Update` of a Deployment. -/
def UpdateDeployment (d : Deployment) (w : World) : Except Err Deployment × World :=
  match w.inject with
  | some e => (.error e, w.advance (.update (.deployment d) (some e)))
  | none =>
    match lookup Deployment.key d.key w.deployments with
    | none => (.error .NotFound, w.advance (.update (.deployment d) (some .NotFound)))
    | some _ =>
      (.ok d, (w.advance (.update (.deployment d) none)).withDeployments
                (put Deployment.key d w.deployments))

/-- `r.Create` of a Deployment. -/
def CreateDeployment (d : Deployment) (w : World) : Option Err × World :=
  match w.inject with
  | some e => (some e, w.advance (.create (.deployment d) (some e)))
  | none =>
    match lookup Deployment.key d.key w.deployments with
    | some _ => (some .AlreadyExists, w.advance (.create (.deployment d) (some .AlreadyExists)))
    | none =>
      (none, (w.advance (.create (.deployment d) none)).withDeployments
               (put Deployment.key d w.deployments))

/-- `r.Create` of a Service. -/
def CreateService (s : Service) (w : World) : Option Err × World :=
  match w.inject with
  | some e => (some e, w.advance (.create (.service s) (some e)))
  | none =>
    match lookup Service.key s.key w.services with
    | some _ => (some .AlreadyExists, w.advance (.create (.service s) (some .AlreadyExists)))
    | none =>
      (none, (w.advance (.create (.service s) none)).withServices
               (put Service.key s w.services))

/-- `r.Delete` of a Deployment: the object named by `d`'s namespace and name. -/
def DeleteDeployment (d : Deployment) (w : World) : Option Err × World :=
  match w.inject with
  | some e => (some e, w.advance (.delete (.deployment d) (some e)))
  | none =>
    match lookup Deployment.key d.key w.deployments with
    | none => (some .NotFound, w.advance (.delete (.deployment d) (some .NotFound)))
    | some _ =>
      (none, (w.advance (.delete (.deployment d) none)).withDeployments
               (remove Deployment.key d.key w.deployments))

/-! ## Library helpers the controller calls -/

/-- The helper `meta.FindStatusCondition` of apimachinery: the first condition
of the given type. -/
def FindStatusCondition (conditions : List Condition) (conditionType : String) :
    Option Condition :=
  conditions.find? (fun c => decide (c.CondType = conditionType))

/-- The helper `meta.IsStatusConditionTrue` of apimachinery. -/
def IsStatusConditionTrue (conditions : List Condition) (conditionType : String) : Bool :=
  match FindStatusCondition conditions conditionType with
  | some c => decide (c.Status = .ConditionTrue)
  | none => false

/-- The helper `meta.SetStatusCondition` of apimachinery, as it is documented:
a condition of a new type is appended, its transition time set to now when it
has none; for a type already there the first entry takes the new reason and
message, and the new status and a fresh transition time when the status
changed. -/
def SetStatusCondition (now : Nat) (conditions : List Condition) (newCondition : Condition) :
    List Condition :=
  match conditions with
  | [] =>
    [if newCondition.LastTransitionTime = 0
     then { newCondition with LastTransitionTime := now } else newCondition]
  | c :: cs =>
    if c.CondType = newCondition.CondType then
      { c with
        Status := newCondition.Status
        LastTransitionTime :=
          if c.Status = newCondition.Status then c.LastTransitionTime
          else if newCondition.LastTransitionTime = 0 then now
          else newCondition.LastTransitionTime
        Reason := newCondition.Reason
        Message := newCondition.Message } :: cs
    else c :: SetStatusCondition now cs newCondition

/-- The constant `MyAppFinalizer`. -/
def MyAppFinalizer : String := "echoh.wonderscloud.com/finalizer"

/-- The helper `controllerutil.ContainsFinalizer`. -/
def ContainsFinalizer (myapp : MyApp) (finalizer : String) : Bool :=
  myapp.Finalizers.contains finalizer

/-- The helper `controllerutil.AddFinalizer`: the object with the finalizer
appended, and whether the list changed. -/
def AddFinalizer (myapp : MyApp) (finalizer : String) : MyApp × Bool :=
  if myapp.Finalizers.contains finalizer then (myapp, false)
  else (myapp.withFinalizers (myapp.Finalizers ++ [finalizer]), true)

/-- The helper `controllerutil.RemoveFinalizer`: the object without the
finalizer, and whether the list changed. -/
def RemoveFinalizer (myapp : MyApp) (finalizer : String) : MyApp × Bool :=
  let kept := myapp.Finalizers.filter (fun f => !decide (f = finalizer))
  (myapp.withFinalizers kept, decide (myapp.Finalizers.length ≠ kept.length))

/-- A `runtime.Scheme`, by the kinds registered in it. -/
structure Scheme where
  Kinds : List String
deriving DecidableEq, Repr

/-- The struct `MyAppReconciler`; its embedded client is the `World`. -/
structure MyAppReconciler where
  Scheme : Scheme
deriving DecidableEq, Repr

/-- The helper `ctrl.SetControllerReference` on an object the builders below
have just made (same namespace as the owner, no controller yet): it fails when
the scheme has no kind for the owner, and else adds the controller reference. -/
def SetControllerReference (owner : MyApp) (refs : List OwnerReference) (scheme : Scheme) :
    Except Err (List OwnerReference) :=
  if scheme.Kinds.contains "MyApp" then
    .ok (refs ++ [{ Kind := "MyApp", Name := owner.Name, UID := owner.UID,
                    Controller := true, BlockOwnerDeletion := true }])
  else .error .NoKindRegistered

/-! ## The controller -/

/-- The function `getPorts`: the loop overwrites its three results at every
declared port, so the last port's values are returned (zero values when no
port is declared), in the order `(svcPort, nodePort, cotainerPort)`. -/
def getPorts (myapp : MyApp) : Int × Int × IntOrString :=
  myapp.Spec.Ports.foldl
    (fun (_ : Int × Int × IntOrString) ports => (ports.Port, ports.NodePort, ports.TargetPort))
    (0, 0, IntOrString.int 0)

/-- The function `labelsForMyApp`. -/
def labelsForMyApp (myapp : MyApp) : List (String × String) :=
  [("app.kubernetes.io/name", "MyApp-operator"),
   ("app.kubernetes.io/managed-by", "MyAppController"),
   ("app", myapp.Name)]

/-- The function `deploymentForMyApp`. Its first line is
`_, containerPort, _ := getPorts(myapp)`: the container port is the second
result of `getPorts`. -/
def deploymentForMyApp (r : MyAppReconciler) (myapp : MyApp) : Except Err Deployment :=
  match getPorts myapp with
  | (_, containerPort, _) =>
    let ls := labelsForMyApp myapp
    let replicas := myapp.Spec.Size
    let image := myapp.Spec.Image
    let dep : Deployment :=
      { Name := myapp.Name
        Namespace := myapp.Namespace
        OwnerReferences := []
        Spec :=
          { Replicas := replicas
            Selector := ls
            Template :=
              { Name := myapp.Name
                Namespace := myapp.Namespace
                Labels := ls
                Containers :=
                  [{ Name := myapp.Name ++ "container"
                     Image := image
                     ImagePullPolicy := "IfNotPresent"
                     Ports := [{ ContainerPort := containerPort }] }] } } }
    match SetControllerReference myapp dep.OwnerReferences r.Scheme with
    | .error err => .error err
    | .ok refs => .ok { dep with OwnerReferences := refs }

/-- The function `serviceForMyApp`. -/
def serviceForMyApp (r : MyAppReconciler) (myapp : MyApp) : Except Err Service :=
  match getPorts myapp with
  | (svcPort, nodePort, containerPort) =>
    let svc : Service :=
      { Name := myapp.Name ++ "-svc"
        Namespace := myapp.Namespace
        OwnerReferences := []
        Spec :=
          { ServiceType := "NodePort"
            Selector := labelsForMyApp myapp
            Ports := [{ Port := svcPort, NodePort := nodePort, TargetPort := containerPort }] } }
    match SetControllerReference myapp svc.OwnerReferences r.Scheme with
    | .error err => .error err
    | .ok refs => .ok { svc with OwnerReferences := refs }

/-- The function `doFinalizerOperationForMyApp`: the Deployment is fetched and,
when the fetch succeeds, deleted; then the Service named `Name + "svc"` is
fetched and, when that fetch succeeds, `r.Delete(ctx, dep)` is called again. A
failed fetch of either kind is passed over. -/
def doFinalizerOperationForMyApp (myapp : MyApp) (w : World) : Option Err × World :=
  let first : Option Err × Deployment × World :=
    match GetDeployment ⟨myapp.Namespace, myapp.Name⟩ w with
    | (.ok dep, w1) =>
      match DeleteDeployment dep w1 with
      | (err, w2) => (err, dep, w2)
    | (.error _, w1) => (none, Deployment.zero, w1)
  match first with
  | (some err, _, w2) => (some err, w2)
  | (none, dep, w2) =>
    match GetService ⟨myapp.Namespace, myapp.Name ++ "svc"⟩ w2 with
    | (.ok _, w3) => DeleteDeployment dep w3
    | (.error _, w3) => (none, w3)

/-- `MyApp` with a condition set by `meta.SetStatusCondition`. -/
def MyApp.setCondition (myapp : MyApp) (now : Nat) (c : Condition) : MyApp :=
  myapp.withStatus { Conditions := SetStatusCondition now myapp.Status.Conditions c }

/-! ### The conditions the controller sets -/

/-- The condition set when the status has none (`Available`, Unknown). -/
def initialCondition : Condition :=
  { CondType := "Available"
    Status := .ConditionUnknown
    Reason := "conditionsNilLenConditions0"
    Message := "conditions nil lenconditions 0, reconciling"
    LastTransitionTime := 0 }

/-- The condition set when cleanup starts (`Unavailable`, False). -/
def markedDeletedCondition (myapp : MyApp) : Condition :=
  { CondType := "Unavailable"
    Status := .ConditionFalse
    Reason := "MyApphasbeenmarkedDeleted"
    Message := "performing finalizer operations for MyApp obj: " ++ myapp.Name
      ++ " update status False"
    LastTransitionTime := 0 }

/-- The condition set after the cleanup (`Unavailable`, True). -/
def afterFinalizerCondition (myapp : MyApp) : Condition :=
  { CondType := "Unavailable"
    Status := .ConditionTrue
    Reason := "AfterFinalizerOperation"
    Message := "Finalizer operation for custom resource MyApp: " ++ myapp.Name
      ++ " was successfully"
    LastTransitionTime := 0 }

/-- The condition set when the Deployment cannot be built (`Available`, False). -/
def deployFailedCondition (myapp : MyApp) (err : Err) : Condition :=
  { CondType := "Available"
    Status := .ConditionFalse
    Reason := "FailedtoDefineAnewDeployForMyApp"
    Message := "Failed to create Deployment for the custom resource (" ++ myapp.Name
      ++ "): (" ++ err.text ++ ")"
    LastTransitionTime := 0 }

/-- The condition set when the Deployment update failed (`Available`, False). -/
def resizingCondition (myapp : MyApp) (err : Err) : Condition :=
  { CondType := "Available"
    Reason := "Resizing"
    Status := .ConditionFalse
    Message := "Failed to update size for Deployment (" ++ myapp.Name
      ++ "):(" ++ err.text ++ ")"
    LastTransitionTime := 0 }

/-- The condition set when the Deployment has the size asked for (`Available`,
True). -/
def availableCondition (myapp : MyApp) (size : Int) : Condition :=
  { CondType := "Available"
    Status := .ConditionTrue
    Reason := "ReSize"
    Message := "Deployment for custom resource (" ++ myapp.Name ++ ") with "
      ++ toString size ++ " replicas created successfully"
    LastTransitionTime := 0 }

/-- The condition set when the Service cannot be built (`Available`, False). -/
def serviceFailedCondition (myapp : MyApp) (err : Err) : Condition :=
  { CondType := "Available"
    Status := .ConditionFalse
    Reason := "FailedToDefineAnewSvcForMyApp"
    Message := "Failed to create Service for the custom resource (" ++ myapp.Name
      ++ "): (" ++ err.text ++ ")"
    LastTransitionTime := 0 }


/-- `Reconcile`, from "check if the service already exits" to its end: the
Service `Name + "-svc"` is fetched and, when absent, built and created. -/
def reconcileService (r : MyAppReconciler) (myapp : MyApp) (w : World) : Outcome × World :=
  match GetService ⟨myapp.Namespace, myapp.Name ++ "-svc"⟩ w with
  | (.error err, w1) =>
    if IsNotFound err then
      match serviceForMyApp r myapp with
      | .error err =>
        let myapp1 := myapp.setCondition w1.now (serviceFailedCondition myapp err)
        match StatusUpdate myapp1 w1 with
        | (.error err2, w2) => ((Result.empty, some err2), w2)
        | (.ok _, w2) => ((Result.empty, some err), w2)
      | .ok svc =>
        match CreateService svc w1 with
        | (some err, w2) => ((Result.empty, some err), w2)
        | (none, w2) => (({ Requeue := false, RequeueAfter := Minute }, none), w2)
    else ((Result.empty, some err), w1)
  | (.ok _, w1) => ((Result.empty, none), w1)

/-- `Reconcile`, from "check if the deployment already exists" on: the
Deployment is fetched; when absent it is built and created; when its replica
count differs from `Spec.Size` it is updated; else the condition
`Available = True` is set and sent by `Status().Update`, and the Service is
looked at. -/
def reconcileDeployment (r : MyAppReconciler) (req : Key) (myapp : MyApp) (w : World) :
    Outcome × World :=
  match GetDeployment req w with
  | (.error err, w1) =>
    if IsNotFound err then
      match deploymentForMyApp r myapp with
      | .error err =>
        let myapp1 := myapp.setCondition w1.now (deployFailedCondition myapp err)
        match StatusUpdate myapp1 w1 with
        | (.error err2, w2) => ((Result.empty, some err2), w2)
        | (.ok _, w2) => ((Result.empty, some err), w2)
      | .ok dep =>
        match CreateDeployment dep w1 with
        | (some err, w2) => ((Result.empty, some err), w2)
        | (none, w2) => (({ Requeue := false, RequeueAfter := Minute }, none), w2)
    else ((Result.empty, some err), w1)
  | (.ok deploy, w1) =>
    let size := myapp.Spec.Size
    if deploy.Spec.Replicas ≠ size then
      let deploy1 := { deploy with Spec := { deploy.Spec with Replicas := size } }
      match UpdateDeployment deploy1 w1 with
      | (.error err, w2) =>
        match GetDeployment req w2 with
        | (.error err2, w3) => ((Result.empty, some err2), w3)
        | (.ok _, w3) =>
          let myapp1 := myapp.setCondition w3.now (resizingCondition myapp err)
          match UpdateMyApp myapp1 w3 with
          | (.error err3, w4) => ((Result.empty, some err3), w4)
          | (.ok _, w4) => (({ Requeue := true, RequeueAfter := 0 }, none), w4)
      | (.ok _, w2) => (({ Requeue := true, RequeueAfter := 0 }, none), w2)
    else
      let myapp1 := myapp.setCondition w1.now (availableCondition myapp size)
      match StatusUpdate myapp1 w1 with
      | (.error err, w2) => ((Result.empty, some err), w2)
      | (.ok myapp2, w2) => reconcileService r myapp2 w2

/-- `Reconcile`, the body of `if isMarkedToBeDeleted`: with the finalizer
present, the condition is set and the MyApp updated, the cleanup runs, the
MyApp is fetched again, its status updated, the finalizer removed and the
MyApp updated; without the finalizer the pass ends. -/
def reconcileDeletion (req : Key) (myapp : MyApp) (w : World) : Outcome × World :=
  if ContainsFinalizer myapp MyAppFinalizer then
    let myapp1 := myapp.setCondition w.now (markedDeletedCondition myapp)
    match UpdateMyApp myapp1 w with
    | (.error err, w1) => ((Result.empty, some err), w1)
    | (.ok myapp2, w1) =>
      match doFinalizerOperationForMyApp myapp2 w1 with
      | (some err, w2) => ((Result.empty, some err), w2)
      | (none, w2) =>
        match GetMyApp req w2 with
        | (.error err, w3) => ((Result.empty, some err), w3)
        | (.ok myapp3, w3) =>
          let myapp4 := myapp3.setCondition w3.now (afterFinalizerCondition myapp3)
          match StatusUpdate myapp4 w3 with
          | (.error err, w4) => ((Result.empty, some err), w4)
          | (.ok myapp5, w4) =>
            match RemoveFinalizer myapp5 MyAppFinalizer with
            | (_, false) => (({ Requeue := true, RequeueAfter := 0 }, none), w4)
            | (myapp6, true) =>
              match UpdateMyApp myapp6 w4 with
              | (.error err, w5) => ((Result.empty, some err), w5)
              | (.ok _, w5) => ((Result.empty, none), w5)
  else ((Result.empty, none), w)

/-- `Reconcile`, from "check if the MyApp instance is marked to be delete" on:
a MyApp with a deletion timestamp goes the deletion way, any other the
Deployment way. -/
def reconcileMarked (r : MyAppReconciler) (req : Key) (myapp : MyApp) (w : World) :
    Outcome × World :=
  if myapp.DeletionTimestamp.isSome then reconcileDeletion req myapp w
  else reconcileDeployment r req myapp w

/-- `Reconcile`, from "add finalizer" on: a MyApp without the finalizer gets it
and is updated, whether or not it is marked for deletion; then the deletion
check and what follows it. -/
def reconcileFinalizer (r : MyAppReconciler) (req : Key) (myapp : MyApp) (w : World) :
    Outcome × World :=
  if !ContainsFinalizer myapp MyAppFinalizer then
    match AddFinalizer myapp MyAppFinalizer with
    | (_, false) => ((Result.empty, none), w)
    | (myapp1, true) =>
      match UpdateMyApp myapp1 w with
      | (.error err, w1) => ((Result.empty, some err), w1)
      | (.ok myapp2, w1) => reconcileMarked r req myapp2 w1
  else reconcileMarked r req myapp w

/-- The method `Reconcile`: the MyApp is fetched (absent: the pass ends with
no error); an empty condition list is initialised, sent by `Status().Update`,
and the MyApp fetched again; then the finalizer step and what follows it. -/
def Reconcile (r : MyAppReconciler) (req : Key) (w : World) : Outcome × World :=
  match GetMyApp req w with
  | (.error err, w1) =>
    if IsNotFound err then ((Result.empty, none), w1)
    else ((Result.empty, some err), w1)
  | (.ok myapp, w1) =>
    if myapp.Status.Conditions.isEmpty then
      let myapp1 := myapp.setCondition w1.now initialCondition
      match StatusUpdate myapp1 w1 with
      | (.error err, w2) => ((Result.empty, some err), w2)
      | (.ok _, w2) =>
        match GetMyApp req w2 with
        | (.error err, w3) => ((Result.empty, some err), w3)
        | (.ok myapp2, w3) => reconcileFinalizer r req myapp2 w3
    else reconcileFinalizer r req myapp w1

/-! ## A running example: the resource `demo` -/

def demo : MyApp :=
  { Name := "demo", Namespace := "default", UID := "uid-demo",
    DeletionTimestamp := none, Finalizers := [],
    Spec := { Size := 2, Image := "nginx:1.25",
              Ports := [{ Port := 80, TargetPort := .int 8080, NodePort := 30080 }] },
    Status := { Conditions := [] } }

def demoKey : Key := ⟨"default", "demo"⟩

def demoReconciler : MyAppReconciler := { Scheme := { Kinds := ["MyApp"] } }

def emptyWorld : World :=
  { myapps := [], deployments := [], services := [], faults := [], log := [], now := 100 }

def demoLabels : List (String × String) :=
  [("app.kubernetes.io/name", "MyApp-operator"),
   ("app.kubernetes.io/managed-by", "MyAppController"),
   ("app", "demo")]

def demoOwner : OwnerReference :=
  { Kind := "MyApp", Name := "demo", UID := "uid-demo", Controller := true,
    BlockOwnerDeletion := true }

/-- The Deployment of `demo` as a store holds it after its creation. -/
def demoDeployment : Deployment :=
  { Name := "demo", Namespace := "default", OwnerReferences := [demoOwner],
    Spec := { Replicas := 2, Selector := demoLabels,
              Template := { Name := "demo", Namespace := "default", Labels := demoLabels,
                            Containers := [{ Name := "democontainer", Image := "nginx:1.25",
                                             ImagePullPolicy := "IfNotPresent",
                                             Ports := [{ ContainerPort := 30080 }] }] } } }

/-- The Service of `demo` as a store holds it after its creation. -/
def demoService : Service :=
  { Name := "demo-svc", Namespace := "default", OwnerReferences := [demoOwner],
    Spec := { ServiceType := "NodePort", Selector := demoLabels,
              Ports := [{ Port := 80, NodePort := 30080, TargetPort := .int 8080 }] } }

/-- The condition a converged pass leaves on `demo`. -/
def demoAvailable : Condition :=
  { CondType := "Available", Status := .ConditionTrue, Reason := "ReSize",
    Message := "Deployment for custom resource (demo) with 2 replicas created successfully",
    LastTransitionTime := 100 }

/-- `demo` as a converged pass leaves it: finalizer and condition in place. -/
def demoActive : MyApp :=
  { demo with Finalizers := [MyAppFinalizer], Status := { Conditions := [demoAvailable] } }

/-- `demo` in the Terminating state: deletion requested, finalizer present. -/
def demoTerminating : MyApp := { demoActive with DeletionTimestamp := some 90 }

/-- A store holding the terminating `demo` and both its managed objects; every
call goes through. -/
def terminatingWorld : World :=
  { emptyWorld with
    myapps := [demoTerminating], deployments := [demoDeployment], services := [demoService] }

/-- `demo` under deletion without the controller's finalizer: another
controller's finalizer keeps it in the store. -/
def demoForeign : MyApp :=
  { demoActive with DeletionTimestamp := some 90, Finalizers := ["other.io/finalizer"] }

/-- `demo` after its first passes: finalizer present, condition still Unknown. -/
def demoPending : MyApp :=
  { demo with
    Finalizers := [MyAppFinalizer]
    Status := { Conditions :=
      [{ CondType := "Available", Status := .ConditionUnknown,
         Reason := "conditionsNilLenConditions0",
         Message := "conditions nil lenconditions 0, reconciling",
         LastTransitionTime := 100 }] } }

/-- `demo` edited to `size: 5`. -/
def demoResized : MyApp := { demoActive with Spec := { demoActive.Spec with Size := 5 } }

/-- A converged store: `demo` with its Deployment and its Service. -/
def convergedWorld : World :=
  { emptyWorld with
    myapps := [demoActive], deployments := [demoDeployment], services := [demoService] }

/-- A store where `demo` has its Deployment and no Service yet. -/
def noServiceWorld : World :=
  { emptyWorld with myapps := [demoPending], deployments := [demoDeployment] }

/-- A store where `demo` has no managed object yet. -/
def bareWorld : World := { emptyWorld with myapps := [demoActive] }

/-- A store where `demo` asks for 5 replicas, its Deployment has 2, and the
store rejects the third call of the pass (the Deployment update) as a
conflict. -/
def resizeConflictWorld : World :=
  { emptyWorld with
    myapps := [demoResized], deployments := [demoDeployment], services := [demoService],
    faults := [none, none, some Fault.Conflict] }

/-- The same store when every call goes through. -/
def resizeWorld : World := { resizeConflictWorld with faults := [] }

/-- The store of the terminating `demo` when the fourth call of the pass, the
deletion of the Deployment, times out. -/
def deleteFailsWorld : World :=
  { terminatingWorld with faults := [none, none, none, some Fault.ServerTimeout] }

/-- A store holding `demo` under deletion without the controller's finalizer,
and its Deployment; every call goes through. -/
def foreignWorld : World :=
  { emptyWorld with myapps := [demoForeign], deployments := [demoDeployment] }

/-- The same store when it refuses the second call of the pass, the `Update`
that adds a finalizer to an object under deletion, as an API server does. -/
def foreignRefusedWorld : World :=
  { foreignWorld with faults := [none, some Fault.Forbidden] }

/-- A reconciler whose scheme has no kind for MyApp. -/
def bareReconciler : MyAppReconciler := { Scheme := { Kinds := [] } }

/-! ## Reading the trace -/

/-- The writes among the calls issued. -/
def writes (w : World) : List Call := w.log.filter Call.isWrite

def Call.isDelete : Call → Bool
  | .delete _ _ => true
  | _ => false

/-- A `Delete` that returned an error. -/
def Call.isFailedDelete : Call → Bool
  | .delete _ (some _) => true
  | _ => false

def Call.isCreate : Call → Bool
  | .create _ _ => true
  | _ => false

/-- An `Update` of a Deployment that returned an error. -/
def Call.isFailedDeploymentUpdate : Call → Bool
  | .update (.deployment _) (some _) => true
  | _ => false

/-- An `Update` of a MyApp sent without the controller's finalizer. -/
def Call.removesFinalizer : Call → Bool
  | .update (.myapp a) _ => !ContainsFinalizer a MyAppFinalizer
  | _ => false

/-- A call on a Service: its fetch, creation, update or deletion. -/
def Call.onService : Call → Bool
  | .get .Service _ _ => true
  | .create (.service _) _ => true
  | .update (.service _) _ => true
  | .delete (.service _) _ => true
  | _ => false

/-- A `Status().Update` that sends the condition `Available` with status True. -/
def Call.sendsAvailableTrue : Call → Bool
  | .statusUpdate a _ => IsStatusConditionTrue a.Status.Conditions "Available"
  | _ => false

/-- A call of the steps ahead of the deletion check: a fetch of the MyApp, a
status update that does not send `Available = True`, an update of the MyApp
sent with the controller's finalizer. -/
def Call.isPrelude : Call → Bool
  | .get .MyApp _ _ => true
  | .statusUpdate a _ => !IsStatusConditionTrue a.Status.Conditions "Available"
  | .update (.myapp a) _ => ContainsFinalizer a MyAppFinalizer
  | _ => false

/-- The two objects are one resource: same identity, spec and deletion
timestamp. -/
def MyApp.sameAs (m app : MyApp) : Prop :=
  m.Name = app.Name ∧ m.Namespace = app.Namespace ∧ m.UID = app.UID ∧ m.Spec = app.Spec
    ∧ m.DeletionTimestamp = app.DeletionTimestamp

/-- Every coming call goes through. -/
def World.calm (w : World) : Prop := ∀ f ∈ w.faults, f = none

instance (w : World) : Decidable w.calm := by
  unfold World.calm; infer_instance

end MyAppController



namespace MyAppController

set_option maxRecDepth 100000

/-! ## The store -/

theorem lookup_key {α : Type} (keyOf : α → Key) {k : Key} {l : List α} {a : α}
    (h : lookup keyOf k l = some a) : keyOf a = k := by
  have := List.find?_some h
  simpa using this

theorem lookup_put_same {α : Type} (keyOf : α → Key) (a : α) (l : List α) :
    lookup keyOf (keyOf a) (put keyOf a l) = some a := by
  simp [lookup, put]

theorem lookup_remove_ne {α : Type} (keyOf : α → Key) {k k' : Key} (l : List α)
    (h : k' ≠ k) : lookup keyOf k (remove keyOf k' l) = lookup keyOf k l := by
  unfold lookup remove
  rw [List.find?_filter]
  congr 1
  funext a
  by_cases h1 : keyOf a = k <;> by_cases h2 : keyOf a = k' <;> simp_all

theorem lookup_remove_same {α : Type} (keyOf : α → Key) (k : Key) (l : List α) :
    lookup keyOf k (remove keyOf k l) = none := by
  simp [lookup, remove, List.find?_eq_none]

theorem lookup_put_ne {α : Type} (keyOf : α → Key) {k : Key} (a : α) (l : List α)
    (h : keyOf a ≠ k) : lookup keyOf k (put keyOf a l) = lookup keyOf k l := by
  have := lookup_remove_ne keyOf l h
  unfold put
  unfold lookup at *
  rw [List.find?_cons]
  simp [h, this]

theorem writes_advance (w : World) (c : Call) :
    writes (w.advance c) = writes w ++ (if c.isWrite then [c] else []) := by
  unfold writes World.advance
  by_cases h : c.isWrite <;> simp [List.filter_append, List.filter_cons, h]

@[simp] theorem advance_myapps (w : World) (c : Call) : (w.advance c).myapps = w.myapps := rfl

@[simp] theorem advance_deployments (w : World) (c : Call) :
    (w.advance c).deployments = w.deployments := rfl

@[simp] theorem advance_services (w : World) (c : Call) :
    (w.advance c).services = w.services := rfl

@[simp] theorem advance_now (w : World) (c : Call) : (w.advance c).now = w.now := rfl

@[simp] theorem advance_log (w : World) (c : Call) : (w.advance c).log = w.log ++ [c] := rfl

@[simp] theorem advance_faults (w : World) (c : Call) :
    (w.advance c).faults = w.faults.tail := rfl

@[simp] theorem withMyapps_myapps (w : World) (l : List MyApp) : (w.withMyapps l).myapps = l := rfl

@[simp] theorem withMyapps_deployments (w : World) (l : List MyApp) :
    (w.withMyapps l).deployments = w.deployments := rfl

@[simp] theorem withMyapps_services (w : World) (l : List MyApp) :
    (w.withMyapps l).services = w.services := rfl

@[simp] theorem withMyapps_faults (w : World) (l : List MyApp) :
    (w.withMyapps l).faults = w.faults := rfl

@[simp] theorem withMyapps_log (w : World) (l : List MyApp) : (w.withMyapps l).log = w.log := rfl

@[simp] theorem withMyapps_now (w : World) (l : List MyApp) : (w.withMyapps l).now = w.now := rfl

@[simp] theorem withDeployments_myapps (w : World) (l : List Deployment) :
    (w.withDeployments l).myapps = w.myapps := rfl

@[simp] theorem withDeployments_deployments (w : World) (l : List Deployment) :
    (w.withDeployments l).deployments = l := rfl

@[simp] theorem withDeployments_services (w : World) (l : List Deployment) :
    (w.withDeployments l).services = w.services := rfl

@[simp] theorem withDeployments_faults (w : World) (l : List Deployment) :
    (w.withDeployments l).faults = w.faults := rfl

@[simp] theorem withDeployments_log (w : World) (l : List Deployment) :
    (w.withDeployments l).log = w.log := rfl

@[simp] theorem withDeployments_now (w : World) (l : List Deployment) :
    (w.withDeployments l).now = w.now := rfl

@[simp] theorem withServices_myapps (w : World) (l : List Service) :
    (w.withServices l).myapps = w.myapps := rfl

@[simp] theorem withServices_deployments (w : World) (l : List Service) :
    (w.withServices l).deployments = w.deployments := rfl

@[simp] theorem withServices_services (w : World) (l : List Service) :
    (w.withServices l).services = l := rfl

@[simp] theorem withServices_faults (w : World) (l : List Service) :
    (w.withServices l).faults = w.faults := rfl

@[simp] theorem withServices_log (w : World) (l : List Service) :
    (w.withServices l).log = w.log := rfl

@[simp] theorem withServices_now (w : World) (l : List Service) :
    (w.withServices l).now = w.now := rfl

@[simp] theorem withStatus_Name (a : MyApp) (st : MyAppStatus) :
    (a.withStatus st).Name = a.Name := rfl

@[simp] theorem withStatus_Namespace (a : MyApp) (st : MyAppStatus) :
    (a.withStatus st).Namespace = a.Namespace := rfl

@[simp] theorem withStatus_UID (a : MyApp) (st : MyAppStatus) : (a.withStatus st).UID = a.UID := rfl

@[simp] theorem withStatus_DeletionTimestamp (a : MyApp) (st : MyAppStatus) :
    (a.withStatus st).DeletionTimestamp = a.DeletionTimestamp := rfl

@[simp] theorem withStatus_Finalizers (a : MyApp) (st : MyAppStatus) :
    (a.withStatus st).Finalizers = a.Finalizers := rfl

@[simp] theorem withStatus_Spec (a : MyApp) (st : MyAppStatus) :
    (a.withStatus st).Spec = a.Spec := rfl

@[simp] theorem withStatus_Status (a : MyApp) (st : MyAppStatus) :
    (a.withStatus st).Status = st := rfl

@[simp] theorem withFinalizers_Name (a : MyApp) (fs : List String) :
    (a.withFinalizers fs).Name = a.Name := rfl

@[simp] theorem withFinalizers_Namespace (a : MyApp) (fs : List String) :
    (a.withFinalizers fs).Namespace = a.Namespace := rfl

@[simp] theorem withFinalizers_UID (a : MyApp) (fs : List String) :
    (a.withFinalizers fs).UID = a.UID := rfl

@[simp] theorem withFinalizers_DeletionTimestamp (a : MyApp) (fs : List String) :
    (a.withFinalizers fs).DeletionTimestamp = a.DeletionTimestamp := rfl

@[simp] theorem withFinalizers_Finalizers (a : MyApp) (fs : List String) :
    (a.withFinalizers fs).Finalizers = fs := rfl

@[simp] theorem withFinalizers_Spec (a : MyApp) (fs : List String) :
    (a.withFinalizers fs).Spec = a.Spec := rfl

@[simp] theorem withFinalizers_Status (a : MyApp) (fs : List String) :
    (a.withFinalizers fs).Status = a.Status := rfl

@[simp] theorem asStored_Name (a s : MyApp) : (a.asStored s).Name = a.Name := rfl

@[simp] theorem asStored_Namespace (a s : MyApp) : (a.asStored s).Namespace = a.Namespace := rfl

@[simp] theorem asStored_UID (a s : MyApp) : (a.asStored s).UID = a.UID := rfl

@[simp] theorem asStored_DeletionTimestamp (a s : MyApp) :
    (a.asStored s).DeletionTimestamp = s.DeletionTimestamp := rfl

@[simp] theorem asStored_Finalizers (a s : MyApp) : (a.asStored s).Finalizers = a.Finalizers := rfl

@[simp] theorem asStored_Spec (a s : MyApp) : (a.asStored s).Spec = a.Spec := rfl

@[simp] theorem asStored_Status (a s : MyApp) : (a.asStored s).Status = s.Status := rfl

@[simp] theorem withStatus_key (a : MyApp) (st : MyAppStatus) : (a.withStatus st).key = a.key := rfl

@[simp] theorem withFinalizers_key (a : MyApp) (fs : List String) :
    (a.withFinalizers fs).key = a.key := rfl

@[simp] theorem asStored_key (a s : MyApp) : (a.asStored s).key = a.key := rfl

@[simp] theorem setCondition_key (a : MyApp) (now : Nat) (c : Condition) :
    (a.setCondition now c).key = a.key := rfl

@[simp] theorem setCondition_Name (a : MyApp) (now : Nat) (c : Condition) :
    (a.setCondition now c).Name = a.Name := rfl

@[simp] theorem setCondition_Namespace (a : MyApp) (now : Nat) (c : Condition) :
    (a.setCondition now c).Namespace = a.Namespace := rfl

@[simp] theorem setCondition_UID (a : MyApp) (now : Nat) (c : Condition) :
    (a.setCondition now c).UID = a.UID := rfl

@[simp] theorem setCondition_DeletionTimestamp (a : MyApp) (now : Nat) (c : Condition) :
    (a.setCondition now c).DeletionTimestamp = a.DeletionTimestamp := rfl

@[simp] theorem setCondition_Finalizers (a : MyApp) (now : Nat) (c : Condition) :
    (a.setCondition now c).Finalizers = a.Finalizers := rfl

@[simp] theorem setCondition_Spec (a : MyApp) (now : Nat) (c : Condition) :
    (a.setCondition now c).Spec = a.Spec := rfl

@[simp] theorem setCondition_Status (a : MyApp) (now : Nat) (c : Condition) :
    (a.setCondition now c).Status.Conditions = SetStatusCondition now a.Status.Conditions c := rfl

theorem calm_withMyapps {w : World} (h : w.calm) (l : List MyApp) : (w.withMyapps l).calm := h

theorem calm_withDeployments {w : World} (h : w.calm) (l : List Deployment) :
    (w.withDeployments l).calm := h

theorem calm_withServices {w : World} (h : w.calm) (l : List Service) : (w.withServices l).calm := h

@[simp] theorem withMyapps_inject (w : World) (l : List MyApp) :
    (w.withMyapps l).inject = w.inject := rfl

@[simp] theorem withDeployments_inject (w : World) (l : List Deployment) :
    (w.withDeployments l).inject = w.inject := rfl

@[simp] theorem withServices_inject (w : World) (l : List Service) :
    (w.withServices l).inject = w.inject := rfl

theorem calm_inject {w : World} (h : w.calm) : w.inject = none := by
  unfold World.inject
  unfold World.calm at h
  cases hf : w.faults with
  | nil => rfl
  | cons f fs =>
    have := h f (by simp [hf])
    subst this
    rfl

theorem calm_advance {w : World} (h : w.calm) (c : Call) : (w.advance c).calm := by
  unfold World.calm at *
  intro f hf
  exact h f (List.mem_of_mem_tail hf)

/-! ### What each call answers -/

theorem GetMyApp_cases (k : Key) (w : World) :
    (∃ e, GetMyApp k w = (.error e, w.advance (.get .MyApp k (some e)))
        ∧ (w.inject = some e ∨ (w.inject = none ∧ lookup MyApp.key k w.myapps = none
            ∧ e = .NotFound)))
    ∨ (∃ a, GetMyApp k w = (.ok a, w.advance (.get .MyApp k none))
        ∧ w.inject = none ∧ lookup MyApp.key k w.myapps = some a) := by
  unfold GetMyApp
  cases hi : w.inject <;> cases hl : lookup MyApp.key k w.myapps <;> simp

theorem GetDeployment_cases (k : Key) (w : World) :
    (∃ e, GetDeployment k w = (.error e, w.advance (.get .Deployment k (some e)))
        ∧ (w.inject = some e ∨ (w.inject = none ∧ lookup Deployment.key k w.deployments = none
            ∧ e = .NotFound)))
    ∨ (∃ d, GetDeployment k w = (.ok d, w.advance (.get .Deployment k none))
        ∧ w.inject = none ∧ lookup Deployment.key k w.deployments = some d) := by
  unfold GetDeployment
  cases hi : w.inject <;> cases hl : lookup Deployment.key k w.deployments <;> simp

theorem GetService_cases (k : Key) (w : World) :
    (∃ e, GetService k w = (.error e, w.advance (.get .Service k (some e)))
        ∧ (w.inject = some e ∨ (w.inject = none ∧ lookup Service.key k w.services = none
            ∧ e = .NotFound)))
    ∨ (∃ s, GetService k w = (.ok s, w.advance (.get .Service k none))
        ∧ w.inject = none ∧ lookup Service.key k w.services = some s) := by
  unfold GetService
  cases hi : w.inject <;> cases hl : lookup Service.key k w.services <;> simp

theorem StatusUpdate_cases (a : MyApp) (w : World) :
    (∃ e, StatusUpdate a w = (.error e, w.advance (.statusUpdate a (some e)))
        ∧ (w.inject = some e ∨ (w.inject = none ∧ lookup MyApp.key a.key w.myapps = none
            ∧ e = .NotFound)))
    ∨ (∃ s, StatusUpdate a w
          = (.ok (s.withStatus a.Status),
             (w.advance (.statusUpdate a none)).withMyapps
               (put MyApp.key (s.withStatus a.Status) w.myapps))
        ∧ w.inject = none ∧ lookup MyApp.key a.key w.myapps = some s) := by
  unfold StatusUpdate
  cases hi : w.inject <;> cases hl : lookup MyApp.key a.key w.myapps <;> simp

theorem UpdateMyApp_cases (a : MyApp) (w : World) :
    (∃ e, UpdateMyApp a w = (.error e, w.advance (.update (.myapp a) (some e)))
        ∧ (w.inject = some e ∨ (w.inject = none ∧ lookup MyApp.key a.key w.myapps = none
            ∧ e = .NotFound)))
    ∨ (∃ s, UpdateMyApp a w
          = (.ok (a.asStored s),
             (w.advance (.update (.myapp a) none)).withMyapps
               (storeMyApp (a.asStored s) w.myapps))
        ∧ w.inject = none ∧ lookup MyApp.key a.key w.myapps = some s) := by
  unfold UpdateMyApp
  cases hi : w.inject <;> cases hl : lookup MyApp.key a.key w.myapps <;> simp

theorem UpdateDeployment_cases (d : Deployment) (w : World) :
    (∃ e, UpdateDeployment d w = (.error e, w.advance (.update (.deployment d) (some e)))
        ∧ (w.inject = some e ∨ (w.inject = none
            ∧ lookup Deployment.key d.key w.deployments = none ∧ e = .NotFound)))
    ∨ (UpdateDeployment d w
          = (.ok d, (w.advance (.update (.deployment d) none)).withDeployments
                      (put Deployment.key d w.deployments))
        ∧ w.inject = none ∧ ∃ s, lookup Deployment.key d.key w.deployments = some s) := by
  unfold UpdateDeployment
  cases hi : w.inject <;> cases hl : lookup Deployment.key d.key w.deployments <;> simp

theorem CreateDeployment_cases (d : Deployment) (w : World) :
    (∃ e, CreateDeployment d w = (some e, w.advance (.create (.deployment d) (some e)))
        ∧ (w.inject = some e ∨ (w.inject = none
            ∧ (∃ s, lookup Deployment.key d.key w.deployments = some s) ∧ e = .AlreadyExists)))
    ∨ (CreateDeployment d w
          = (none, (w.advance (.create (.deployment d) none)).withDeployments
                     (put Deployment.key d w.deployments))
        ∧ w.inject = none ∧ lookup Deployment.key d.key w.deployments = none) := by
  unfold CreateDeployment
  cases hi : w.inject <;> cases hl : lookup Deployment.key d.key w.deployments <;> simp

theorem CreateService_cases (s : Service) (w : World) :
    (∃ e, CreateService s w = (some e, w.advance (.create (.service s) (some e)))
        ∧ (w.inject = some e ∨ (w.inject = none
            ∧ (∃ t, lookup Service.key s.key w.services = some t) ∧ e = .AlreadyExists)))
    ∨ (CreateService s w
          = (none, (w.advance (.create (.service s) none)).withServices
                     (put Service.key s w.services))
        ∧ w.inject = none ∧ lookup Service.key s.key w.services = none) := by
  unfold CreateService
  cases hi : w.inject <;> cases hl : lookup Service.key s.key w.services <;> simp

theorem DeleteDeployment_cases (d : Deployment) (w : World) :
    (∃ e, DeleteDeployment d w = (some e, w.advance (.delete (.deployment d) (some e)))
        ∧ (w.inject = some e ∨ (w.inject = none
            ∧ lookup Deployment.key d.key w.deployments = none ∧ e = .NotFound)))
    ∨ (DeleteDeployment d w
          = (none, (w.advance (.delete (.deployment d) none)).withDeployments
                     (remove Deployment.key d.key w.deployments))
        ∧ w.inject = none ∧ ∃ s, lookup Deployment.key d.key w.deployments = some s) := by
  unfold DeleteDeployment
  cases hi : w.inject <;> cases hl : lookup Deployment.key d.key w.deployments <;> simp

theorem inject_not_notFound {w : World} {e : Err} (h : w.inject = some e) :
    IsNotFound e = false := by
  unfold World.inject at h
  split at h
  · rename_i f _ _
    injection h with h
    subst h
    cases f <;> rfl
  · cases h

theorem not_calm_of_inject {w : World} {e : Err} (h : w.inject = some e) : ¬ w.calm := by
  intro hc
  rw [calm_inject hc] at h
  cases h

theorem not_calm_of_advance {w : World} {c : Call} (h : ¬ (w.advance c).calm) : ¬ w.calm :=
  fun hc => h (calm_advance hc c)

/-! ### What each call answers when the store lets it through -/

theorem GetMyApp_calm {k : Key} {w : World} {a : MyApp} (hc : w.calm)
    (hl : lookup MyApp.key k w.myapps = some a) :
    GetMyApp k w = (.ok a, w.advance (.get .MyApp k none)) := by
  unfold GetMyApp
  rw [calm_inject hc]
  simp only [hl]

theorem GetDeployment_calm {k : Key} {w : World} {d : Deployment} (hc : w.calm)
    (hl : lookup Deployment.key k w.deployments = some d) :
    GetDeployment k w = (.ok d, w.advance (.get .Deployment k none)) := by
  unfold GetDeployment
  rw [calm_inject hc]
  simp only [hl]

theorem GetDeployment_calm_absent {k : Key} {w : World} (hc : w.calm)
    (hl : lookup Deployment.key k w.deployments = none) :
    GetDeployment k w
      = (.error .NotFound, w.advance (.get .Deployment k (some .NotFound))) := by
  unfold GetDeployment
  rw [calm_inject hc]
  simp only [hl]

theorem GetService_calm {k : Key} {w : World} {s : Service} (hc : w.calm)
    (hl : lookup Service.key k w.services = some s) :
    GetService k w = (.ok s, w.advance (.get .Service k none)) := by
  unfold GetService
  rw [calm_inject hc]
  simp only [hl]

theorem StatusUpdate_calm {a s : MyApp} {w : World} (hc : w.calm)
    (hl : lookup MyApp.key a.key w.myapps = some s) :
    StatusUpdate a w
      = (.ok (s.withStatus a.Status),
         (w.advance (.statusUpdate a none)).withMyapps
           (put MyApp.key (s.withStatus a.Status) w.myapps)) := by
  unfold StatusUpdate
  rw [calm_inject hc]
  simp only [hl]

theorem CreateDeployment_calm {d : Deployment} {w : World} (hc : w.calm)
    (hl : lookup Deployment.key d.key w.deployments = none) :
    CreateDeployment d w
      = (none, (w.advance (.create (.deployment d) none)).withDeployments
                 (put Deployment.key d w.deployments)) := by
  unfold CreateDeployment
  rw [calm_inject hc]
  simp only [hl]

theorem lookup_put_self {α : Type} (keyOf : α → Key) {a : α} {l : List α}
    (h : lookup keyOf (keyOf a) l = some a) (k : Key) :
    lookup keyOf k (put keyOf a l) = lookup keyOf k l := by
  by_cases hk : keyOf a = k
  · subst hk
    rw [lookup_put_same, h]
  · exact lookup_put_ne keyOf a l hk

theorem SetStatusCondition_same (now : Nat) (conds : List Condition) (n c : Condition)
    (hf : FindStatusCondition conds n.CondType = some c)
    (hs : c.Status = n.Status) (hr : c.Reason = n.Reason) (hm : c.Message = n.Message) :
    SetStatusCondition now conds n = conds := by
  induction conds with
  | nil => simp [FindStatusCondition] at hf
  | cons x xs ih =>
    unfold SetStatusCondition
    unfold FindStatusCondition at hf ih
    rw [List.find?_cons] at hf
    by_cases hx : x.CondType = n.CondType
    · simp only [hx, decide_True] at hf
      injection hf with hf
      subst hf
      simp only [hx, if_true, hs]
      rw [← hs, ← hr, ← hm, ← hx]
    · simp only [hx, decide_False] at hf
      simp only [hx, if_false]
      rw [ih hf]

/-! ### The steps ahead of the deletion check -/

theorem AddFinalizer_absent (m : MyApp) (h : ¬ ContainsFinalizer m MyAppFinalizer = true) :
    AddFinalizer m MyAppFinalizer
      = (m.withFinalizers (m.Finalizers ++ [MyAppFinalizer]), true) := by
  unfold AddFinalizer
  unfold ContainsFinalizer at h
  simp only [h, if_false, Bool.false_eq_true]

theorem storeMyApp_lookup (a : MyApp) (l : List MyApp) (h : a.Finalizers ≠ []) :
    lookup MyApp.key a.key (storeMyApp a l) = some a := by
  unfold storeMyApp
  have : a.Finalizers.isEmpty = false := by
    cases hf : a.Finalizers with
    | nil => exact absurd hf h
    | cons => rfl
  simp only [this, Bool.and_false, Bool.false_eq_true, if_false]
  exact lookup_put_same MyApp.key a l

theorem reconcileFinalizer_prelude (r : MyAppReconciler) (req : Key) (m : MyApp) (w : World)
    (hst : lookup MyApp.key req w.myapps = some m) :
    ∃ pre, (∀ c ∈ pre, Call.isPrelude c = true) ∧
      ((∃ e w', reconcileFinalizer r req m w = ((Result.empty, some e), w')
          ∧ w'.log = w.log ++ pre ∧ ¬ w.calm
          ∧ w'.deployments = w.deployments ∧ w'.services = w.services)
      ∨ (∃ m' w', reconcileFinalizer r req m w = reconcileMarked r req m' w'
          ∧ w'.log = w.log ++ pre
          ∧ lookup MyApp.key req w'.myapps = some m'
          ∧ ContainsFinalizer m' MyAppFinalizer = true
          ∧ m'.sameAs m ∧ m'.Status = m.Status
          ∧ w'.deployments = w.deployments ∧ w'.services = w.services ∧ w'.now = w.now
          ∧ (w.calm → w'.calm))) := by
  have hkey : m.key = req := lookup_key MyApp.key hst
  unfold reconcileFinalizer
  by_cases hc : ContainsFinalizer m MyAppFinalizer = true
  · refine ⟨[], by simp, Or.inr ⟨m, w, by simp [hc], by simp, hst, hc,
      ⟨rfl, rfl, rfl, rfl, rfl⟩, rfl, rfl, rfl, rfl, id⟩⟩
  · simp only [hc, AddFinalizer_absent m hc, Bool.not_false, if_true, Bool.false_eq_true,
      not_false_eq_true]
    have hfin : ContainsFinalizer (m.withFinalizers (m.Finalizers ++ [MyAppFinalizer]))
        MyAppFinalizer = true := by
      simp [ContainsFinalizer]
    rcases UpdateMyApp_cases (m.withFinalizers (m.Finalizers ++ [MyAppFinalizer])) w with
      ⟨e, h, hwhy⟩ | ⟨s, h, hi, hl⟩
    · refine ⟨[.update (.myapp (m.withFinalizers (m.Finalizers ++ [MyAppFinalizer]))) (some e)],
        ?_, Or.inl ⟨e, w.advance (.update (.myapp
          (m.withFinalizers (m.Finalizers ++ [MyAppFinalizer]))) (some e)),
          by rw [h], by simp, ?_, by simp, by simp⟩⟩
      · intro c hcm
        simp only [List.mem_singleton] at hcm
        subst hcm
        exact hfin
      · rcases hwhy with hi | ⟨_, hl, _⟩
        · exact not_calm_of_inject hi
        · rw [withFinalizers_key, hkey, hst] at hl
          cases hl
    · rw [withFinalizers_key, hkey, hst] at hl
      injection hl with hl
      subst hl
      refine ⟨[.update (.myapp (m.withFinalizers (m.Finalizers ++ [MyAppFinalizer]))) none],
        ?_, Or.inr ⟨(m.withFinalizers (m.Finalizers ++ [MyAppFinalizer])).asStored m, _,
          by rw [h], by simp, ?_, hfin, ⟨rfl, rfl, rfl, rfl, rfl⟩, rfl,
          by simp, by simp, by simp,
          fun hcalm => calm_withMyapps (calm_advance hcalm _) _⟩⟩
      · intro c hcm
        simp only [List.mem_singleton] at hcm
        subst hcm
        exact hfin
      · have := storeMyApp_lookup
          ((m.withFinalizers (m.Finalizers ++ [MyAppFinalizer])).asStored m) w.myapps
          (by simp)
        simpa [hkey] using this

theorem FindStatusCondition_set (now : Nat) (conds : List Condition) (c : Condition) :
    ∃ c', FindStatusCondition (SetStatusCondition now conds c) c.CondType = some c'
      ∧ c'.Status = c.Status := by
  induction conds with
  | nil =>
    unfold SetStatusCondition FindStatusCondition
    by_cases h : c.LastTransitionTime = 0 <;> simp [h]
  | cons x xs ih =>
    unfold SetStatusCondition
    by_cases h : x.CondType = c.CondType
    · simp [h, FindStatusCondition]
    · obtain ⟨c', hc', hs⟩ := ih
      refine ⟨c', ?_, hs⟩
      unfold FindStatusCondition at hc' ⊢
      simp only [h, if_false]
      rw [List.find?_cons]
      simp only [h, decide_False]
      exact hc'

theorem IsStatusConditionTrue_set (now : Nat) (conds : List Condition) (c : Condition) :
    IsStatusConditionTrue (SetStatusCondition now conds c) c.CondType
      = decide (c.Status = .ConditionTrue) := by
  obtain ⟨c', hc', hs⟩ := FindStatusCondition_set now conds c
  simp only [IsStatusConditionTrue, hc', hs]

theorem calm_of_not {w w' : World} (h : w.calm → w'.calm) (hn : ¬ w'.calm) : ¬ w.calm :=
  fun hc => hn (h hc)

theorem initial_isPrelude (a : MyApp) (now : Nat) (e : Option Err) :
    Call.isPrelude (.statusUpdate (a.setCondition now initialCondition) e) = true := by
  have := IsStatusConditionTrue_set now a.Status.Conditions initialCondition
  simp only [Call.isPrelude, setCondition_Status]
  rw [show ("Available" : String) = initialCondition.CondType from rfl, this]
  rfl

theorem Reconcile_prelude (r : MyAppReconciler) (req : Key) (w : World) (app : MyApp)
    (hget : lookup MyApp.key req w.myapps = some app) :
    ∃ pre, (∀ c ∈ pre, Call.isPrelude c = true) ∧
      ((∃ e w', Reconcile r req w = ((Result.empty, some e), w')
          ∧ w'.log = w.log ++ pre ∧ ¬ w.calm
          ∧ w'.deployments = w.deployments ∧ w'.services = w.services)
      ∨ (∃ m w', Reconcile r req w = reconcileMarked r req m w'
          ∧ w'.log = w.log ++ pre
          ∧ lookup MyApp.key req w'.myapps = some m
          ∧ ContainsFinalizer m MyAppFinalizer = true
          ∧ m.sameAs app ∧ (app.Status.Conditions.isEmpty = false → m.Status = app.Status)
          ∧ w'.deployments = w.deployments ∧ w'.services = w.services ∧ w'.now = w.now
          ∧ (w.calm → w'.calm))) := by
  have hkey : app.key = req := lookup_key MyApp.key hget
  unfold Reconcile
  rcases GetMyApp_cases req w with ⟨e, h, hwhy⟩ | ⟨a, h, hi, hl⟩
  · rcases hwhy with hi | ⟨_, hl, _⟩
    · refine ⟨[.get .MyApp req (some e)], by simp [Call.isPrelude],
        Or.inl ⟨e, w.advance (.get .MyApp req (some e)), ?_, by simp,
          not_calm_of_inject hi, by simp, by simp⟩⟩
      rw [h]
      simp [inject_not_notFound hi]
    · rw [hget] at hl
      cases hl
  · rw [hget] at hl
    injection hl with hl
    subst hl
    rw [h]
    by_cases hcond : app.Status.Conditions.isEmpty = true
    · simp only [hcond, if_true, advance_now]
      rcases StatusUpdate_cases (app.setCondition w.now initialCondition)
          (w.advance (.get .MyApp req none)) with ⟨e, h2, hwhy⟩ | ⟨s, h2, hi2, hl2⟩
      · rw [h2]
        refine ⟨[.get .MyApp req none,
          .statusUpdate (app.setCondition w.now initialCondition) (some e)], ?_,
          Or.inl ⟨e, _, rfl, by simp, ?_, by simp, by simp⟩⟩
        · intro c hc
          simp only [List.mem_cons, List.mem_singleton, List.not_mem_nil, or_false] at hc
          rcases hc with rfl | rfl
          · rfl
          · exact initial_isPrelude _ _ _
        · rcases hwhy with hi3 | ⟨_, hl3, _⟩
          · exact not_calm_of_advance (not_calm_of_inject hi3)
          · simp only [setCondition_key, advance_myapps, hkey, hget] at hl3
            cases hl3
      · simp only [setCondition_key, advance_myapps, hkey, hget] at hl2
        injection hl2 with hl2
        subst hl2
        rw [h2]
        simp only [advance_myapps]
        obtain ⟨w2, hw2⟩ : ∃ w2, w2 = ((w.advance (.get .MyApp req none)).advance
            (.statusUpdate (app.setCondition w.now initialCondition) none)).withMyapps
            (put MyApp.key (app.withStatus (app.setCondition w.now initialCondition).Status)
              w.myapps) := ⟨_, rfl⟩
        rw [← hw2]
        have hlog2 : w2.log = w.log ++ [.get .MyApp req none,
            .statusUpdate (app.setCondition w.now initialCondition) none] := by
          simp [hw2]
        have hd2 : w2.deployments = w.deployments := by simp [hw2]
        have hs2 : w2.services = w.services := by simp [hw2]
        have hn2 : w2.now = w.now := by simp [hw2]
        have hc2 : w.calm → w2.calm := fun hc => by
          rw [hw2]
          exact calm_withMyapps (calm_advance (calm_advance hc _) _) _
        have hst2 : lookup MyApp.key req w2.myapps
            = some (app.withStatus (app.setCondition w.now initialCondition).Status) := by
          have := lookup_put_same MyApp.key
            (app.withStatus (app.setCondition w.now initialCondition).Status) w.myapps
          rw [withStatus_key, hkey] at this
          simp [hw2, this]
        clear hw2 h2
        rcases GetMyApp_cases req w2 with ⟨e, h3, hwhy⟩ | ⟨a2, h3, hi3, hl3⟩
        · rw [h3]
          rcases hwhy with hi4 | ⟨_, hl4, _⟩
          · refine ⟨[.get .MyApp req none,
              .statusUpdate (app.setCondition w.now initialCondition) none,
              .get .MyApp req (some e)], ?_,
              Or.inl ⟨e, _, rfl, by simp [hlog2], calm_of_not hc2 (not_calm_of_inject hi4),
                by simp [hd2], by simp [hs2]⟩⟩
            intro c hc
            simp only [List.mem_cons, List.mem_singleton, List.not_mem_nil, or_false] at hc
            rcases hc with rfl | rfl | rfl
            · rfl
            · exact initial_isPrelude _ _ _
            · rfl
          · rw [hst2] at hl4
            cases hl4
        · rw [hst2] at hl3
          injection hl3 with hl3
          subst hl3
          rw [h3]
          simp only []
          obtain ⟨pre2, hp2, hcases⟩ := reconcileFinalizer_prelude r req
            (app.withStatus (app.setCondition w.now initialCondition).Status)
            (w2.advance (.get .MyApp req none)) (by simpa using hst2)
          refine ⟨[.get .MyApp req none,
              .statusUpdate (app.setCondition w.now initialCondition) none,
              .get .MyApp req none] ++ pre2, ?_, ?_⟩
          · intro c hc
            simp only [List.mem_append, List.mem_cons, List.mem_singleton, List.not_mem_nil,
              or_false] at hc
            rcases hc with (rfl | rfl | rfl) | hc
            · rfl
            · exact initial_isPrelude _ _ _
            · rfl
            · exact hp2 c hc
          · rcases hcases with ⟨e, w', he, hlog, hnc, hd, hs⟩ |
              ⟨m', w', he, hlog, hlk, hfin, hsame, hstat, hd, hs, hnow, hcalm⟩
            · exact Or.inl ⟨e, w', he, by simp [hlog, hlog2],
                calm_of_not hc2 (not_calm_of_advance hnc), by simp [hd, hd2], by simp [hs, hs2]⟩
            · refine Or.inr ⟨m', w', he, by simp [hlog, hlog2], hlk, hfin, ?_, ?_,
                by simp [hd, hd2], by simp [hs, hs2], by simp [hnow, hn2],
                fun hc => hcalm (calm_advance (hc2 hc) _)⟩
              · obtain ⟨h1, h2', h3', h4, h5⟩ := hsame
                exact ⟨h1, h2', h3', h4, h5⟩
              · intro hne
                cases hne
    · simp only [hcond, if_false, Bool.false_eq_true]
      obtain ⟨pre2, hp2, hcases⟩ := reconcileFinalizer_prelude r req app
        (w.advance (.get .MyApp req none)) (by simpa using hget)
      refine ⟨[.get .MyApp req none] ++ pre2, ?_, ?_⟩
      · intro c hc
        simp only [List.mem_append, List.mem_singleton] at hc
        rcases hc with rfl | hc
        · rfl
        · exact hp2 c hc
      · rcases hcases with ⟨e, w', he, hlog, hnc, hd, hs⟩ |
          ⟨m', w', he, hlog, hlk, hfin, hsame, hstat, hd, hs, hnow, hcalm⟩
        · exact Or.inl ⟨e, w', he, by simp [hlog], not_calm_of_advance hnc,
            by simp [hd], by simp [hs]⟩
        · exact Or.inr ⟨m', w', he, by simp [hlog], hlk, hfin, hsame, fun _ => hstat,
            by simp [hd], by simp [hs], by simp [hnow], fun hc => hcalm (calm_advance hc _)⟩

/-! ### The Service step and the Deployment step -/

theorem deploymentForMyApp_ok {r : MyAppReconciler} {m : MyApp} {dep : Deployment}
    (h : deploymentForMyApp r m = .ok dep) :
    dep.Name = m.Name ∧ dep.Namespace = m.Namespace ∧ dep.Spec.Replicas = m.Spec.Size
      ∧ dep.Spec.Template.Containers.map (fun c => c.Image) = [m.Spec.Image] := by
  unfold deploymentForMyApp at h
  cases hs : SetControllerReference m [] r.Scheme with
  | error e => simp [hs] at h
  | ok refs =>
    simp only [hs] at h
    injection h with h
    subst h
    exact ⟨rfl, rfl, rfl, rfl⟩

theorem reconcileService_frame (r : MyAppReconciler) (m : MyApp) (w : World) :
    (reconcileService r m w).2.deployments = w.deployments
    ∧ ∃ new, (reconcileService r m w).2.log = w.log ++ new := by
  unfold reconcileService
  rcases GetService_cases ⟨m.Namespace, m.Name ++ "-svc"⟩ w with ⟨e, h, _⟩ | ⟨s, h, _, _⟩
  · rw [h]
    by_cases hnf : IsNotFound e = true
    · simp only [hnf, if_true]
      cases hsvc : serviceForMyApp r m with
      | error err =>
        simp only []
        rcases StatusUpdate_cases (m.setCondition (w.advance (.get .Service
            ⟨m.Namespace, m.Name ++ "-svc"⟩ (some e))).now (serviceFailedCondition m err))
            (w.advance (.get .Service ⟨m.Namespace, m.Name ++ "-svc"⟩ (some e)))
          with ⟨e2, h2, _⟩ | ⟨s2, h2, _, _⟩
        · rw [h2]
          exact ⟨by simp, _, by simp [List.append_assoc]; rfl⟩
        · rw [h2]
          exact ⟨by simp, _, by simp [List.append_assoc]; rfl⟩
      | ok svc =>
        simp only []
        rcases CreateService_cases svc (w.advance (.get .Service
            ⟨m.Namespace, m.Name ++ "-svc"⟩ (some e))) with ⟨e2, h2, _⟩ | ⟨h2, _, _⟩
        · rw [h2]
          exact ⟨by simp, _, by simp [List.append_assoc]; rfl⟩
        · rw [h2]
          exact ⟨by simp, _, by simp [List.append_assoc]; rfl⟩
    · simp only [hnf, if_false, Bool.false_eq_true]
      exact ⟨by simp, _, by simp; rfl⟩
  · rw [h]
    exact ⟨by simp, _, by simp; rfl⟩

theorem reconcileDeployment_converges (r : MyAppReconciler) (req : Key) (m : MyApp)
    (w : World) (hkey : m.key = req)
    (herr : (reconcileDeployment r req m w).1.2 = none)
    (hupd : ∀ c ∈ (reconcileDeployment r req m w).2.log, c.isFailedDeploymentUpdate = false) :
    ∃ d, lookup Deployment.key req (reconcileDeployment r req m w).2.deployments = some d
      ∧ d.Spec.Replicas = m.Spec.Size := by
  unfold reconcileDeployment at herr hupd ⊢
  rcases GetDeployment_cases req w with ⟨e, h, _⟩ | ⟨deploy, h, _, hl⟩
  · rw [h] at herr hupd ⊢
    by_cases hnf : IsNotFound e = true
    · simp only [hnf, if_true] at herr hupd ⊢
      cases hdep : deploymentForMyApp r m with
      | error err =>
        simp only [hdep] at herr
        rcases StatusUpdate_cases (m.setCondition (w.advance (.get .Deployment req
            (some e))).now (deployFailedCondition m err))
            (w.advance (.get .Deployment req (some e))) with ⟨e2, h2, _⟩ | ⟨s2, h2, _, _⟩
        · rw [h2] at herr
          cases herr
        · rw [h2] at herr
          cases herr
      | ok dep =>
        simp only [hdep] at herr ⊢
        obtain ⟨hn, hns, hrep, _⟩ := deploymentForMyApp_ok hdep
        have hdk : dep.key = req := by
          rw [← hkey]
          simp [Deployment.key, MyApp.key, hn, hns]
        rcases CreateDeployment_cases dep (w.advance (.get .Deployment req (some e)))
          with ⟨e2, h2, _⟩ | ⟨h2, _, _⟩
        · rw [h2] at herr
          cases herr
        · rw [h2]
          refine ⟨dep, ?_, hrep⟩
          have := lookup_put_same Deployment.key dep w.deployments
          rw [hdk] at this
          simpa using this
    · simp only [hnf, if_false, Bool.false_eq_true] at herr
      cases herr
  · rw [h] at herr hupd ⊢
    have hdk : deploy.key = req := lookup_key Deployment.key hl
    by_cases hne : deploy.Spec.Replicas ≠ m.Spec.Size
    · simp only [hne, if_true, ne_eq, not_false_eq_true] at herr hupd ⊢
      rcases UpdateDeployment_cases
          { deploy with Spec := { deploy.Spec with Replicas := m.Spec.Size } }
          (w.advance (.get .Deployment req none)) with ⟨e2, h2, _⟩ | ⟨h2, _, _⟩
      · rw [h2] at herr hupd
        simp only [] at herr hupd
        rcases GetDeployment_cases req ((w.advance (.get .Deployment req none)).advance
            (.update (.deployment
              { deploy with Spec := { deploy.Spec with Replicas := m.Spec.Size } })
              (some e2))) with ⟨e3, h3, _⟩ | ⟨d3, h3, _, _⟩
        · rw [h3] at herr
          cases herr
        · rw [h3] at herr hupd
          simp only [] at herr hupd
          rcases UpdateMyApp_cases (m.setCondition
              (((w.advance (.get .Deployment req none)).advance
                (.update (.deployment
                  { deploy with Spec := { deploy.Spec with Replicas := m.Spec.Size } })
                  (some e2))).advance (.get .Deployment req none)).now
              (resizingCondition m e2))
            (((w.advance (.get .Deployment req none)).advance
                (.update (.deployment
                  { deploy with Spec := { deploy.Spec with Replicas := m.Spec.Size } })
                  (some e2))).advance (.get .Deployment req none))
            with ⟨e4, h4, _⟩ | ⟨s4, h4, _, _⟩
          · rw [h4] at herr
            cases herr
          · rw [h4] at hupd
            have := hupd (.update (.deployment
              { deploy with Spec := { deploy.Spec with Replicas := m.Spec.Size } })
              (some e2)) (by simp)
            simp [Call.isFailedDeploymentUpdate] at this
      · rw [h2]
        refine ⟨{ deploy with Spec := { deploy.Spec with Replicas := m.Spec.Size } }, ?_, rfl⟩
        have := lookup_put_same Deployment.key
          { deploy with Spec := { deploy.Spec with Replicas := m.Spec.Size } } w.deployments
        rw [show Deployment.key
          { deploy with Spec := { deploy.Spec with Replicas := m.Spec.Size } } = req from hdk]
          at this
        simpa using this
    · have heq : deploy.Spec.Replicas = m.Spec.Size := not_not.mp hne
      simp only [hne, if_false] at herr ⊢
      rcases StatusUpdate_cases (m.setCondition (w.advance (.get .Deployment req none)).now
          (availableCondition m m.Spec.Size)) (w.advance (.get .Deployment req none))
        with ⟨e2, h2, _⟩ | ⟨s2, h2, _, _⟩
      · rw [h2] at herr
        cases herr
      · rw [h2]
        simp only []
        rw [(reconcileService_frame r _ _).1]
        exact ⟨deploy, by simpa using hl, heq⟩

theorem sendsAvailableTrue_set (m : MyApp) (now : Nat) (c : Condition) (e : Option Err)
    (hc : c.CondType = "Available") :
    Call.sendsAvailableTrue (.statusUpdate (m.setCondition now c) e)
      = decide (c.Status = .ConditionTrue) := by
  simp only [Call.sendsAvailableTrue, setCondition_Status]
  rw [← hc]
  exact IsStatusConditionTrue_set now _ c

theorem sends_deployFailed (m : MyApp) (now : Nat) (err : Err) (e : Option Err) :
    Call.sendsAvailableTrue
      (.statusUpdate (m.setCondition now (deployFailedCondition m err)) e) = false := by
  rw [sendsAvailableTrue_set _ _ _ _ rfl]
  rfl

theorem sends_serviceFailed (m : MyApp) (now : Nat) (err : Err) (e : Option Err) :
    Call.sendsAvailableTrue
      (.statusUpdate (m.setCondition now (serviceFailedCondition m err)) e) = false := by
  rw [sendsAvailableTrue_set _ _ _ _ rfl]
  rfl

theorem sends_available (m : MyApp) (now : Nat) (size : Int) (e : Option Err) :
    Call.sendsAvailableTrue
      (.statusUpdate (m.setCondition now (availableCondition m size)) e) = true := by
  rw [sendsAvailableTrue_set _ _ _ _ rfl]
  rfl

theorem sends_get (k : Kind) (key : Key) (e : Option Err) :
    Call.sendsAvailableTrue (.get k key e) = false := rfl

theorem sends_create (o : Obj) (e : Option Err) :
    Call.sendsAvailableTrue (.create o e) = false := rfl

theorem sends_update (o : Obj) (e : Option Err) :
    Call.sendsAvailableTrue (.update o e) = false := rfl

theorem sends_delete (o : Obj) (e : Option Err) :
    Call.sendsAvailableTrue (.delete o e) = false := rfl

theorem quiet_trace {l : List Call} {P Q : Prop}
    (h : ∀ c ∈ l, c.sendsAvailableTrue = false ∧ c.onService = false) :
    ((∃ c ∈ l, c.sendsAvailableTrue = true) → P) ∧ ((∃ c ∈ l, c.onService = true) → Q) := by
  constructor
  · rintro ⟨c, hc, hp⟩
    rw [(h c hc).1] at hp
    cases hp
  · rintro ⟨c, hc, hp⟩
    rw [(h c hc).2] at hp
    cases hp

theorem reconcileDeployment_trace (r : MyAppReconciler) (req : Key) (m : MyApp) (w : World) :
    ∃ new, (reconcileDeployment r req m w).2.log = w.log ++ new
      ∧ ((∃ c ∈ new, c.sendsAvailableTrue = true) →
          ∃ d, lookup Deployment.key req w.deployments = some d
            ∧ d.Spec.Replicas = m.Spec.Size)
      ∧ ((∃ c ∈ new, c.onService = true) →
          ∃ before a after, new = before ++ Call.statusUpdate a none :: after
            ∧ IsStatusConditionTrue a.Status.Conditions "Available" = true
            ∧ ∀ c ∈ before, c.onService = false) := by
  unfold reconcileDeployment
  rcases GetDeployment_cases req w with ⟨e, h, _⟩ | ⟨deploy, h, _, hl⟩
  · rw [h]
    by_cases hnf : IsNotFound e = true
    · simp only [hnf, if_true]
      cases hdep : deploymentForMyApp r m with
      | error err =>
        simp only []
        rcases StatusUpdate_cases (m.setCondition (w.advance (.get .Deployment req
            (some e))).now (deployFailedCondition m err))
            (w.advance (.get .Deployment req (some e))) with ⟨e2, h2, _⟩ | ⟨s2, h2, _, _⟩
        · rw [h2]
          refine ⟨_, by simp [List.append_assoc]; rfl, quiet_trace ?_⟩
          simp [sends_deployFailed, sends_get, Call.onService]
        · rw [h2]
          refine ⟨_, by simp [List.append_assoc]; rfl, quiet_trace ?_⟩
          simp [sends_deployFailed, sends_get, Call.onService]
      | ok dep =>
        simp only []
        rcases CreateDeployment_cases dep (w.advance (.get .Deployment req (some e)))
          with ⟨e2, h2, _⟩ | ⟨h2, _, _⟩
        · rw [h2]
          refine ⟨_, by simp [List.append_assoc]; rfl, quiet_trace ?_⟩
          simp [sends_get, sends_create, sends_update, Call.onService]
        · rw [h2]
          refine ⟨_, by simp [List.append_assoc]; rfl, quiet_trace ?_⟩
          simp [sends_get, sends_create, sends_update, Call.onService]
    · simp only [hnf, if_false, Bool.false_eq_true]
      refine ⟨_, by simp [List.append_assoc]; rfl, quiet_trace ?_⟩
      simp [sends_get, sends_create, sends_update, Call.onService]
  · rw [h]
    by_cases hne : deploy.Spec.Replicas ≠ m.Spec.Size
    · simp only [hne, if_true, ne_eq, not_false_eq_true]
      rcases UpdateDeployment_cases
          { deploy with Spec := { deploy.Spec with Replicas := m.Spec.Size } }
          (w.advance (.get .Deployment req none)) with ⟨e2, h2, _⟩ | ⟨h2, _, _⟩
      · rw [h2]
        simp only []
        rcases GetDeployment_cases req ((w.advance (.get .Deployment req none)).advance
            (.update (.deployment
              { deploy with Spec := { deploy.Spec with Replicas := m.Spec.Size } })
              (some e2))) with ⟨e3, h3, _⟩ | ⟨d3, h3, _, _⟩
        · rw [h3]
          refine ⟨_, by simp [List.append_assoc]; rfl, quiet_trace ?_⟩
          simp [sends_get, sends_create, sends_update, Call.onService]
        · rw [h3]
          simp only []
          rcases UpdateMyApp_cases (m.setCondition
              (((w.advance (.get .Deployment req none)).advance
                (.update (.deployment
                  { deploy with Spec := { deploy.Spec with Replicas := m.Spec.Size } })
                  (some e2))).advance (.get .Deployment req none)).now
              (resizingCondition m e2))
            (((w.advance (.get .Deployment req none)).advance
                (.update (.deployment
                  { deploy with Spec := { deploy.Spec with Replicas := m.Spec.Size } })
                  (some e2))).advance (.get .Deployment req none))
            with ⟨e4, h4, _⟩ | ⟨s4, h4, _, _⟩
          · rw [h4]
            refine ⟨_, by simp [List.append_assoc]; rfl, quiet_trace ?_⟩
            simp [sends_get, sends_create, sends_update, Call.onService]
          · rw [h4]
            refine ⟨_, by simp [List.append_assoc]; rfl, quiet_trace ?_⟩
            simp [sends_get, sends_create, sends_update, Call.onService]
      · rw [h2]
        refine ⟨_, by simp [List.append_assoc]; rfl, quiet_trace ?_⟩
        simp [sends_get, sends_create, sends_update, Call.onService]
    · have heq : deploy.Spec.Replicas = m.Spec.Size := not_not.mp hne
      simp only [hne, if_false]
      rcases StatusUpdate_cases (m.setCondition (w.advance (.get .Deployment req none)).now
          (availableCondition m m.Spec.Size)) (w.advance (.get .Deployment req none))
        with ⟨e2, h2, _⟩ | ⟨s2, h2, _, _⟩
      · rw [h2]
        refine ⟨_, by simp [List.append_assoc]; rfl, fun _ => ⟨deploy, hl, heq⟩, ?_⟩
        rintro ⟨c, hc, hp⟩
        simp only [List.mem_cons, List.mem_singleton, List.not_mem_nil, or_false] at hc
        rcases hc with rfl | rfl <;> simp [Call.onService] at hp
      · rw [h2]
        simp only []
        obtain ⟨_, new, hnew⟩ := reconcileService_frame r
          (s2.withStatus (m.setCondition (w.advance (.get .Deployment req none)).now
            (availableCondition m m.Spec.Size)).Status)
          (((w.advance (.get .Deployment req none)).advance
            (.statusUpdate (m.setCondition (w.advance (.get .Deployment req none)).now
              (availableCondition m m.Spec.Size)) none)).withMyapps
            (put MyApp.key (s2.withStatus (m.setCondition
              (w.advance (.get .Deployment req none)).now
              (availableCondition m m.Spec.Size)).Status)
              (w.advance (.get .Deployment req none)).myapps))
        rw [hnew]
        refine ⟨[.get .Deployment req none,
          .statusUpdate (m.setCondition (w.advance (.get .Deployment req none)).now
              (availableCondition m m.Spec.Size)) none] ++ new, by simp,
          fun _ => ⟨deploy, hl, heq⟩,
          fun _ => ⟨[.get .Deployment req none], _, new, rfl,
            sends_available m (w.advance (.get .Deployment req none)).now m.Spec.Size none,
            by simp [Call.onService]⟩⟩

theorem isPrelude_quiet {c : Call} (h : c.isPrelude = true) :
    c.onService = false ∧ c.sendsAvailableTrue = false ∧ c.isDelete = false
      ∧ c.isCreate = false ∧ c.removesFinalizer = false
      ∧ c.isFailedDeploymentUpdate = false := by
  cases c with
  | get kind key err => cases kind <;> simp_all [Call.isPrelude, Call.onService,
      Call.sendsAvailableTrue, Call.isDelete, Call.isCreate, Call.removesFinalizer,
      Call.isFailedDeploymentUpdate]
  | create o err => simp [Call.isPrelude] at h
  | update o err =>
    cases o <;> simp_all [Call.isPrelude, Call.onService,
      Call.sendsAvailableTrue, Call.isDelete, Call.isCreate, Call.removesFinalizer,
      Call.isFailedDeploymentUpdate]
  | statusUpdate a err => simp_all [Call.isPrelude, Call.onService,
      Call.sendsAvailableTrue, Call.isDelete, Call.isCreate, Call.removesFinalizer,
      Call.isFailedDeploymentUpdate]
  | delete o err => simp [Call.isPrelude] at h

/-! ### The deletion step -/

theorem doFinalizerOperationForMyApp_trace (m : MyApp) (w : World) :
    (doFinalizerOperationForMyApp m w).2.myapps = w.myapps
    ∧ ∃ new, (doFinalizerOperationForMyApp m w).2.log = w.log ++ new
      ∧ (∀ c ∈ new, c.removesFinalizer = false)
      ∧ ((doFinalizerOperationForMyApp m w).1 = none → ∀ c ∈ new, c.isFailedDelete = false) := by
  unfold doFinalizerOperationForMyApp
  rcases GetDeployment_cases ⟨m.Namespace, m.Name⟩ w with ⟨e, h, _⟩ | ⟨dep, h, _, _⟩
  · rw [h]
    simp only []
    rcases GetService_cases ⟨m.Namespace, m.Name ++ "svc"⟩
        (w.advance (.get .Deployment ⟨m.Namespace, m.Name⟩ (some e)))
      with ⟨e2, h2, _⟩ | ⟨s2, h2, _, _⟩
    · rw [h2]
      refine ⟨by simp, _, by simp [List.append_assoc]; rfl, ?_, ?_⟩
      · simp [Call.removesFinalizer]
      · simp [Call.isFailedDelete]
    · rw [h2]
      simp only []
      rcases DeleteDeployment_cases Deployment.zero
          ((w.advance (.get .Deployment ⟨m.Namespace, m.Name⟩ (some e))).advance
            (.get .Service ⟨m.Namespace, m.Name ++ "svc"⟩ none))
        with ⟨e3, h3, _⟩ | ⟨h3, _, _⟩
      · rw [h3]
        refine ⟨by simp, _, by simp [List.append_assoc]; rfl, ?_, ?_⟩
        · simp [Call.removesFinalizer]
        · simp
      · rw [h3]
        refine ⟨by simp, _, by simp [List.append_assoc]; rfl, ?_, ?_⟩
        · simp [Call.removesFinalizer]
        · simp [Call.isFailedDelete]
  · rw [h]
    simp only []
    rcases DeleteDeployment_cases dep (w.advance (.get .Deployment ⟨m.Namespace, m.Name⟩ none))
      with ⟨e1, h1, _⟩ | ⟨h1, _, _⟩
    · rw [h1]
      refine ⟨by simp, _, by simp [List.append_assoc]; rfl, ?_, ?_⟩
      · simp [Call.removesFinalizer]
      · simp
    · rw [h1]
      simp only []
      rcases GetService_cases ⟨m.Namespace, m.Name ++ "svc"⟩
          (((w.advance (.get .Deployment ⟨m.Namespace, m.Name⟩ none)).advance
            (.delete (.deployment dep) none)).withDeployments
            (remove Deployment.key dep.key
              (w.advance (.get .Deployment ⟨m.Namespace, m.Name⟩ none)).deployments))
        with ⟨e2, h2, _⟩ | ⟨s2, h2, _, _⟩
      · rw [h2]
        refine ⟨by simp, _, by simp [List.append_assoc]; rfl, ?_, ?_⟩
        · simp [Call.removesFinalizer]
        · simp [Call.isFailedDelete]
      · rw [h2]
        simp only []
        rcases DeleteDeployment_cases dep
            ((((w.advance (.get .Deployment ⟨m.Namespace, m.Name⟩ none)).advance
              (.delete (.deployment dep) none)).withDeployments
              (remove Deployment.key dep.key
                (w.advance (.get .Deployment ⟨m.Namespace, m.Name⟩ none)).deployments)).advance
              (.get .Service ⟨m.Namespace, m.Name ++ "svc"⟩ none))
          with ⟨e3, h3, _⟩ | ⟨h3, _, _⟩
        · rw [h3]
          refine ⟨by simp, _, by simp [List.append_assoc]; rfl, ?_, ?_⟩
          · simp [Call.removesFinalizer]
          · simp
        · rw [h3]
          refine ⟨by simp, _, by simp [List.append_assoc]; rfl, ?_, ?_⟩
          · simp [Call.removesFinalizer]
          · simp [Call.isFailedDelete]

theorem no_failed_delete {P : Prop} {l : List Call}
    (h : ∀ c ∈ l, c.isFailedDelete = false) : (∃ c ∈ l, c.isFailedDelete = true) → P := by
  rintro ⟨c, hc, hp⟩
  rw [h c hc] at hp
  cases hp

theorem reconcileDeletion_delete_error (req : Key) (m : MyApp) (w : World)
    (hst : lookup MyApp.key req w.myapps = some m)
    (hfin : ContainsFinalizer m MyAppFinalizer = true) :
    ∃ new, (reconcileDeletion req m w).2.log = w.log ++ new
      ∧ ((∃ c ∈ new, c.isFailedDelete = true) →
          (reconcileDeletion req m w).1.2 ≠ none
          ∧ (∀ c ∈ new, c.removesFinalizer = false)
          ∧ ∃ a, lookup MyApp.key req (reconcileDeletion req m w).2.myapps = some a
              ∧ ContainsFinalizer a MyAppFinalizer = true) := by
  have hkey : m.key = req := lookup_key MyApp.key hst
  unfold reconcileDeletion
  simp only [hfin, if_true]
  rcases UpdateMyApp_cases (m.setCondition w.now (markedDeletedCondition m)) w with
    ⟨e, h, _⟩ | ⟨s, h, _, hl⟩
  · rw [h]
    refine ⟨_, by simp; rfl, no_failed_delete ?_⟩
    simp [Call.isFailedDelete]
  · rw [setCondition_key, hkey, hst] at hl
    injection hl with hl
    subst hl
    rw [h]
    simp only []
    obtain ⟨w1, hw1⟩ : ∃ w1, w1 = (w.advance (.update (.myapp
        (m.setCondition w.now (markedDeletedCondition m))) none)).withMyapps
        (storeMyApp ((m.setCondition w.now (markedDeletedCondition m)).asStored m) w.myapps) :=
      ⟨_, rfl⟩
    rw [← hw1]
    have hlog1 : w1.log = w.log ++ [.update (.myapp
        (m.setCondition w.now (markedDeletedCondition m))) none] := by simp [hw1]
    have hfin1 : ContainsFinalizer ((m.setCondition w.now (markedDeletedCondition m)).asStored m)
        MyAppFinalizer = true := hfin
    have hst1 : lookup MyApp.key req w1.myapps
        = some ((m.setCondition w.now (markedDeletedCondition m)).asStored m) := by
      have hne : ((m.setCondition w.now (markedDeletedCondition m)).asStored m).Finalizers ≠ [] := by
        intro hnil
        have := hfin1
        unfold ContainsFinalizer at this
        rw [hnil] at this
        cases this
      have := storeMyApp_lookup _ w.myapps hne
      rw [hw1]
      simpa [hkey] using this
    have hupd : Call.removesFinalizer (.update (.myapp
        (m.setCondition w.now (markedDeletedCondition m))) none) = false := by
      simp only [Call.removesFinalizer]
      rw [show ContainsFinalizer (m.setCondition w.now (markedDeletedCondition m))
        MyAppFinalizer = true from hfin]
      rfl
    clear hw1 h
    obtain ⟨hmy, new2, hlog2, hrm2, hfd2⟩ := doFinalizerOperationForMyApp_trace
      ((m.setCondition w.now (markedDeletedCondition m)).asStored m) w1
    rcases hp : doFinalizerOperationForMyApp
      ((m.setCondition w.now (markedDeletedCondition m)).asStored m) w1 with ⟨res, w2⟩
    rw [hp] at hmy hlog2 hfd2
    simp only [] at hmy hlog2 hfd2
    cases res with
    | some err =>
      simp only []
      refine ⟨[.update (.myapp (m.setCondition w.now (markedDeletedCondition m))) none] ++ new2,
        by simp [hlog2, hlog1], fun _ => ⟨by simp, ?_, _, by rw [hmy]; exact hst1, hfin1⟩⟩
      intro c hc
      rcases List.mem_append.mp hc with hc | hc
      · rw [List.mem_singleton] at hc
        subst hc
        exact hupd
      · exact hrm2 c hc
    | none =>
      have hq := hfd2 rfl
      have hq1 : ∀ c ∈ [Call.update (.myapp (m.setCondition w.now (markedDeletedCondition m)))
          none] ++ new2, c.isFailedDelete = false := by
        intro c hc
        rcases List.mem_append.mp hc with hc | hc
        · rw [List.mem_singleton] at hc
          subst hc
          rfl
        · exact hq c hc
      have hq2 : ∀ tail : List Call, (∀ c ∈ tail, c.isFailedDelete = false) →
          ∀ c ∈ ([Call.update (.myapp (m.setCondition w.now (markedDeletedCondition m)))
            none] ++ new2) ++ tail, c.isFailedDelete = false := by
        intro tail ht c hc
        rcases List.mem_append.mp hc with hc | hc
        · exact hq1 c hc
        · exact ht c hc
      simp only []
      rcases GetMyApp_cases req w2 with ⟨e3, h3, _⟩ | ⟨m3, h3, _, _⟩
      · rw [h3]
        refine ⟨_, ?_, no_failed_delete (hq2 [.get .MyApp req (some e3)] ?_)⟩
        · simp [hlog2, hlog1]
        · simp [Call.isFailedDelete]
      · rw [h3]
        simp only []
        rcases StatusUpdate_cases
            (m3.setCondition (w2.advance (.get .MyApp req none)).now
              (afterFinalizerCondition m3)) (w2.advance (.get .MyApp req none))
          with ⟨e4, h4, _⟩ | ⟨s4, h4, _, _⟩
        · rw [h4]
          refine ⟨_, ?_, no_failed_delete (hq2 [.get .MyApp req none, .statusUpdate
            (m3.setCondition (w2.advance (.get .MyApp req none)).now
              (afterFinalizerCondition m3)) (some e4)] ?_)⟩
          · simp [hlog2, hlog1]
          · simp [Call.isFailedDelete]
        · rw [h4]
          simp only []
          rcases hrf : RemoveFinalizer (s4.withStatus
              (m3.setCondition (w2.advance (.get .MyApp req none)).now
                (afterFinalizerCondition m3)).Status) MyAppFinalizer with ⟨m6, b⟩
          cases b with
          | false =>
            simp only []
            refine ⟨_, ?_, no_failed_delete (hq2 [.get .MyApp req none, .statusUpdate
              (m3.setCondition (w2.advance (.get .MyApp req none)).now
                (afterFinalizerCondition m3)) none] ?_)⟩
            · simp [hlog2, hlog1]
            · simp [Call.isFailedDelete]
          | true =>
            simp only []
            rcases UpdateMyApp_cases m6
                (((w2.advance (.get .MyApp req none)).advance (.statusUpdate
                  (m3.setCondition (w2.advance (.get .MyApp req none)).now
                    (afterFinalizerCondition m3)) none)).withMyapps
                  (put MyApp.key (s4.withStatus
                    (m3.setCondition (w2.advance (.get .MyApp req none)).now
                      (afterFinalizerCondition m3)).Status)
                    (w2.advance (.get .MyApp req none)).myapps))
              with ⟨e5, h5, _⟩ | ⟨s5, h5, _, _⟩
            · rw [h5]
              refine ⟨_, ?_, no_failed_delete (hq2 [.get .MyApp req none, .statusUpdate
                (m3.setCondition (w2.advance (.get .MyApp req none)).now
                  (afterFinalizerCondition m3)) none, .update (.myapp m6) (some e5)] ?_)⟩
              · simp [hlog2, hlog1]
              · simp [Call.isFailedDelete]
            · rw [h5]
              refine ⟨_, ?_, no_failed_delete (hq2 [.get .MyApp req none, .statusUpdate
                (m3.setCondition (w2.advance (.get .MyApp req none)).now
                  (afterFinalizerCondition m3)) none, .update (.myapp m6) none] ?_)⟩
              · simp [hlog2, hlog1]
              · simp [Call.isFailedDelete]

/-! ## C8: a MyApp that cannot be fetched -/

/-- C8: when the first `Get` of the MyApp returns an error, the pass ends
there: the result is empty, the error is nil for NotFound and the `Get`'s own
error otherwise, no write is issued and the store holds what it held. -/
theorem Reconcile_get_error (r : MyAppReconciler) (req : Key) (w : World) (e : Err)
    (h : (GetMyApp req w).1 = .error e) :
    (Reconcile r req w).1 = (Result.empty, if e = .NotFound then none else some e)
    ∧ writes (Reconcile r req w).2 = writes w
    ∧ (Reconcile r req w).2.myapps = w.myapps
    ∧ (Reconcile r req w).2.deployments = w.deployments
    ∧ (Reconcile r req w).2.services = w.services := by
  unfold Reconcile
  unfold GetMyApp at *
  cases hi : w.inject with
  | some e' =>
    simp only [hi] at h ⊢
    injection h with h
    subst h
    cases e' <;> simp [IsNotFound, writes_advance, Call.isWrite]
  | none =>
    simp only [hi] at h ⊢
    cases hl : lookup MyApp.key req w.myapps with
    | none =>
      simp only [hl] at h ⊢
      injection h with h
      subst h
      simp [IsNotFound, writes_advance, Call.isWrite]
    | some a =>
      simp only [hl] at h
      cases h

/-- C8, at concrete inputs: `demo` is absent from the empty store (NotFound),
and a store that times out gives that error back. -/
theorem Reconcile_get_error_witness :
    ((Reconcile demoReconciler demoKey emptyWorld).1 = (Result.empty, none)
      ∧ writes (Reconcile demoReconciler demoKey emptyWorld).2 = [])
    ∧ ((Reconcile demoReconciler demoKey
          { convergedWorld with faults := [some Fault.ServerTimeout] }).1
        = (Result.empty, some Err.ServerTimeout)
      ∧ writes (Reconcile demoReconciler demoKey
          { convergedWorld with faults := [some Fault.ServerTimeout] }).2 = []) :=
  ⟨⟨(Reconcile_get_error demoReconciler demoKey emptyWorld .NotFound (by decide)).1,
    (Reconcile_get_error demoReconciler demoKey emptyWorld .NotFound (by decide)).2.1⟩,
   ⟨(Reconcile_get_error demoReconciler demoKey
      { convergedWorld with faults := [some Fault.ServerTimeout] } .ServerTimeout
      (by decide)).1,
    (Reconcile_get_error demoReconciler demoKey
      { convergedWorld with faults := [some Fault.ServerTimeout] } .ServerTimeout
      (by decide)).2.1⟩⟩

/-! ## C2, C9: the builders -/

theorem foldl_last {α β : Type} (g : α → β) :
    ∀ (l : List α) (b : β) (h : l ≠ []),
      l.foldl (fun (_ : β) x => g x) b = g (l.getLast h) := by
  intro l
  induction l with
  | nil => intro b h; exact absurd rfl h
  | cons x xs ih =>
    intro b h
    cases xs with
    | nil => rfl
    | cons y ys =>
      rw [List.foldl_cons, ih _ (List.cons_ne_nil y ys), List.getLast_cons (List.cons_ne_nil y ys)]

/-- The ports `getPorts` returns are those of the last declared port. -/
theorem getPorts_last (myapp : MyApp) (h : myapp.Spec.Ports ≠ []) :
    getPorts myapp = ((myapp.Spec.Ports.getLast h).Port, (myapp.Spec.Ports.getLast h).NodePort,
      (myapp.Spec.Ports.getLast h).TargetPort) := by
  unfold getPorts
  exact foldl_last (fun p : PortSpec => (p.Port, p.NodePort, p.TargetPort)) _ _ h

/-- C2 (what the code does): with at least one declared port and the owner
reference set, the Deployment built has exactly one container port, and it is
the nodePort of the last declared port. -/
theorem deploymentForMyApp_containerPort (r : MyAppReconciler) (myapp : MyApp)
    (h : myapp.Spec.Ports ≠ [])
    (hs : ∃ refs, SetControllerReference myapp [] r.Scheme = .ok refs) :
    ∃ dep, deploymentForMyApp r myapp = .ok dep
      ∧ dep.Spec.Template.Containers.map (fun c => c.Ports)
          = [[{ ContainerPort := (myapp.Spec.Ports.getLast h).NodePort }]] := by
  obtain ⟨refs, hrefs⟩ := hs
  simp [deploymentForMyApp, getPorts_last myapp h, hrefs]

/-- C9: with at least one declared port and the owner reference set,
`serviceForMyApp` returns a Service named `Name + "-svc"` in the MyApp's
namespace, of type NodePort, owned by the MyApp, whose selector is the label
set `deploymentForMyApp` gives the Deployment as its selector and its pod
template as labels, and whose only port entry has the port, nodePort and
targetPort of the last declared port. -/
theorem serviceForMyApp_spec (r : MyAppReconciler) (myapp : MyApp)
    (refs : List OwnerReference)
    (h : myapp.Spec.Ports ≠ [])
    (hs : SetControllerReference myapp [] r.Scheme = .ok refs) :
    ∃ svc dep, serviceForMyApp r myapp = .ok svc
      ∧ deploymentForMyApp r myapp = .ok dep
      ∧ svc.Name = myapp.Name ++ "-svc"
      ∧ svc.Namespace = myapp.Namespace
      ∧ svc.OwnerReferences = refs
      ∧ svc.Spec.ServiceType = "NodePort"
      ∧ svc.Spec.Selector = dep.Spec.Template.Labels
      ∧ svc.Spec.Selector = dep.Spec.Selector
      ∧ svc.Spec.Ports = [{ Port := (myapp.Spec.Ports.getLast h).Port
                            NodePort := (myapp.Spec.Ports.getLast h).NodePort
                            TargetPort := (myapp.Spec.Ports.getLast h).TargetPort }] := by
  simp [serviceForMyApp, deploymentForMyApp, getPorts_last myapp h, hs]

/-- C9, at `demo`: the Service built is `demo-svc` with port 80, nodePort 30080
and targetPort 8080. -/
theorem serviceForMyApp_spec_witness :
    ∃ svc dep, serviceForMyApp demoReconciler demo = .ok svc
      ∧ deploymentForMyApp demoReconciler demo = .ok dep
      ∧ svc.Name = demo.Name ++ "-svc"
      ∧ svc.Namespace = demo.Namespace
      ∧ svc.OwnerReferences = [demoOwner]
      ∧ svc.Spec.ServiceType = "NodePort"
      ∧ svc.Spec.Selector = dep.Spec.Template.Labels
      ∧ svc.Spec.Selector = dep.Spec.Selector
      ∧ svc.Spec.Ports = [{ Port := 80, NodePort := 30080, TargetPort := .int 8080 }] :=
  serviceForMyApp_spec demoReconciler demo [demoOwner] (by decide) (by decide)

/-! ## C3: convergence of the replica count -/

/-- C3 (counterexample): `demo` asks for 5 replicas and is not marked for
deletion, its Deployment has 2, the store rejects the Deployment update as a
conflict; the pass returns `Requeue: true` with a nil error and the Deployment
in the store still has 2 replicas. -/
theorem Reconcile_conflict_keeps_replicas :
    lookup MyApp.key demoKey resizeConflictWorld.myapps = some demoResized
    ∧ demoResized.DeletionTimestamp = none
    ∧ 0 ≤ demoResized.Spec.Size
    ∧ (Reconcile demoReconciler demoKey resizeConflictWorld).1
        = ({ Requeue := true, RequeueAfter := 0 }, none)
    ∧ ¬ (∃ d, lookup Deployment.key demoKey
          (Reconcile demoReconciler demoKey resizeConflictWorld).2.deployments = some d
        ∧ d.Spec.Replicas = demoResized.Spec.Size) := by
  refine ⟨by decide, by decide, by decide, by decide, ?_⟩
  rintro ⟨d, hd, hr⟩
  have h2 : lookup Deployment.key demoKey
      (Reconcile demoReconciler demoKey resizeConflictWorld).2.deployments
        = some demoDeployment := by decide
  rw [h2] at hd
  injection hd with hd
  subst hd
  revert hr
  decide

/-- C3 (amended): for a MyApp in the store and not marked for deletion, if
`Reconcile` returns a nil error and no update of the Deployment on the trace
failed, the store then holds the Deployment under the MyApp's key with a
replica count equal to `Spec.Size`. (For a world whose trace starts empty the
trace is the calls of the pass.) -/
theorem Reconcile_converges (r : MyAppReconciler) (req : Key) (w : World) (app : MyApp)
    (hget : lookup MyApp.key req w.myapps = some app)
    (hdel : app.DeletionTimestamp = none)
    (herr : (Reconcile r req w).1.2 = none)
    (hupd : ∀ c ∈ (Reconcile r req w).2.log, c.isFailedDeploymentUpdate = false) :
    ∃ d, lookup Deployment.key req (Reconcile r req w).2.deployments = some d
      ∧ d.Spec.Replicas = app.Spec.Size := by
  obtain ⟨pre, _, hcases⟩ := Reconcile_prelude r req w app hget
  rcases hcases with ⟨e, w', he, _⟩ | ⟨m, w', he, _, hlk, _, hsame, _⟩
  · rw [he] at herr
    cases herr
  · obtain ⟨_, _, _, hspec, hdt⟩ := hsame
    have hmd : m.DeletionTimestamp.isSome = false := by rw [hdt, hdel]; rfl
    rw [he] at herr hupd ⊢
    unfold reconcileMarked at herr hupd ⊢
    simp only [hmd, if_false, Bool.false_eq_true] at herr hupd ⊢
    rw [← hspec]
    exact reconcileDeployment_converges r req m w' (lookup_key MyApp.key hlk) herr hupd

/-- C3 (amended), at the resized `demo` with every call going through: the
pass updates the Deployment and the store holds 5 replicas. -/
theorem Reconcile_converges_witness :
    (Reconcile demoReconciler demoKey resizeWorld).1.2 = none
    ∧ ∃ d, lookup Deployment.key demoKey
        (Reconcile demoReconciler demoKey resizeWorld).2.deployments = some d
      ∧ d.Spec.Replicas = 5 :=
  ⟨by decide,
   Reconcile_converges demoReconciler demoKey resizeWorld demoResized (by decide) (by decide)
    (by decide) (by decide)⟩

/-! ## C7: when `Available = True` is sent -/

/-- C7 (counterexample): `demo` is not under deletion, its Deployment is in
the store with the replica count asked for, its Service is absent. The pass
sends `Available = True` by a status update that succeeds, then creates the
Service and returns `RequeueAfter` one minute; the MyApp in the store has
`Available = True`. -/
theorem Reconcile_available_before_service :
    lookup Service.key ⟨"default", "demo-svc"⟩ noServiceWorld.services = none
    ∧ (Reconcile demoReconciler demoKey noServiceWorld).1
        = ({ Requeue := false, RequeueAfter := Minute }, none)
    ∧ writes (Reconcile demoReconciler demoKey noServiceWorld).2
        = [Call.statusUpdate { demoPending with Status := { Conditions := [demoAvailable] } } none,
           Call.create (.service demoService) none]
    ∧ (lookup MyApp.key demoKey (Reconcile demoReconciler demoKey noServiceWorld).2.myapps).map
        (fun a => IsStatusConditionTrue a.Status.Conditions "Available") = some true := by
  decide

/-- C7 (amended): in a pass on a MyApp not under deletion (trace empty at the
start), a status update sending `Available = True` is issued only when the
Deployment was found in the store with a replica count equal to `Spec.Size`;
and whenever the pass makes a call on the Service (its fetch or creation), a
status update sending `Available = True` has succeeded before the first such
call. -/
theorem Reconcile_available_after_workload (r : MyAppReconciler) (req : Key) (w : World)
    (app : MyApp)
    (hget : lookup MyApp.key req w.myapps = some app)
    (hdel : app.DeletionTimestamp = none)
    (hlog : w.log = []) :
    ((∃ c ∈ (Reconcile r req w).2.log, c.sendsAvailableTrue = true) →
      ∃ d, lookup Deployment.key req w.deployments = some d
        ∧ d.Spec.Replicas = app.Spec.Size)
    ∧ ((∃ c ∈ (Reconcile r req w).2.log, c.onService = true) →
      ∃ before a after,
        (Reconcile r req w).2.log = before ++ Call.statusUpdate a none :: after
        ∧ IsStatusConditionTrue a.Status.Conditions "Available" = true
        ∧ ∀ c ∈ before, c.onService = false) := by
  obtain ⟨pre, hpre, hcases⟩ := Reconcile_prelude r req w app hget
  rcases hcases with ⟨e, w', he, hl, _⟩ | ⟨m, w', he, hl, hlk, _, hsame, _, hd, _⟩
  · rw [he]
    simp only [hl, hlog, List.nil_append]
    constructor
    · rintro ⟨c, hc, hp⟩
      rw [(isPrelude_quiet (hpre c hc)).2.1] at hp
      cases hp
    · rintro ⟨c, hc, hp⟩
      rw [(isPrelude_quiet (hpre c hc)).1] at hp
      cases hp
  · obtain ⟨_, _, _, hspec, hdt⟩ := hsame
    have hmd : m.DeletionTimestamp.isSome = false := by rw [hdt, hdel]; rfl
    rw [he]
    unfold reconcileMarked
    simp only [hmd, if_false, Bool.false_eq_true]
    obtain ⟨new, hnew, h1, h2⟩ := reconcileDeployment_trace r req m w'
    rw [hnew, hl, hlog, List.nil_append]
    constructor
    · rintro ⟨c, hc, hp⟩
      rcases List.mem_append.mp hc with hc | hc
      · rw [(isPrelude_quiet (hpre c hc)).2.1] at hp
        cases hp
      · rw [← hd, ← hspec]
        exact h1 ⟨c, hc, hp⟩
    · rintro ⟨c, hc, hp⟩
      rcases List.mem_append.mp hc with hc | hc
      · rw [(isPrelude_quiet (hpre c hc)).1] at hp
        cases hp
      · obtain ⟨before, a, after, hsplit, ha, hb⟩ := h2 ⟨c, hc, hp⟩
        refine ⟨pre ++ before, a, after, by rw [hsplit, List.append_assoc], ha, ?_⟩
        intro c hc
        rcases List.mem_append.mp hc with hc | hc
        · exact (isPrelude_quiet (hpre c hc)).1
        · exact hb c hc

/-- C7 (amended), at `demo` with its Deployment in place and no Service: the
Deployment found has the 2 replicas asked for, and the status update sending
`Available = True` stands on the trace ahead of every call on the Service. -/
theorem Reconcile_available_after_workload_witness :
    (∃ d, lookup Deployment.key demoKey noServiceWorld.deployments = some d
        ∧ d.Spec.Replicas = demoPending.Spec.Size)
    ∧ ∃ before a after,
        (Reconcile demoReconciler demoKey noServiceWorld).2.log
          = before ++ Call.statusUpdate a none :: after
        ∧ IsStatusConditionTrue a.Status.Conditions "Available" = true
        ∧ ∀ c ∈ before, c.onService = false :=
  ⟨(Reconcile_available_after_workload demoReconciler demoKey noServiceWorld demoPending
      (by decide) (by decide) (by decide)).1 (by decide),
   (Reconcile_available_after_workload demoReconciler demoKey noServiceWorld demoPending
      (by decide) (by decide) (by decide)).2 (by decide)⟩

/-! ## C5: a further pass on a converged store -/

/-- C5 (counterexample): on the converged store of `demo` (finalizer and
`Available = True` in place, Deployment with 2 replicas, Service `demo-svc`)
the pass returns the empty result with a nil error and issues a write: one
`Status().Update` of the MyApp. -/
theorem converged_pass_writes_status :
    (Reconcile demoReconciler demoKey convergedWorld).1 = (Result.empty, none)
    ∧ writes (Reconcile demoReconciler demoKey convergedWorld).2
        = [Call.statusUpdate demoActive none]
    ∧ writes (Reconcile demoReconciler demoKey convergedWorld).2 ≠ [] := by
  decide

theorem setCondition_same (app : MyApp) (now : Nat) (n c : Condition)
    (hf : FindStatusCondition app.Status.Conditions n.CondType = some c)
    (hs : c.Status = n.Status) (hr : c.Reason = n.Reason) (hm : c.Message = n.Message) :
    app.setCondition now n = app := by
  unfold MyApp.setCondition MyApp.withStatus
  rw [SetStatusCondition_same now _ n c hf hs hr hm]

/-- C5 (amended): on a converged store (the MyApp not under deletion, with
the finalizer and the condition `Available = True` a converged pass leaves,
its Deployment present with `Spec.Size` replicas, its Service `Name + "-svc"`
present) where every call goes through, `Reconcile` returns the empty result
with a nil error and issues exactly one write, a `Status().Update` that sends
the MyApp as the store holds it: no create, update or delete is issued, and
every object the store holds is as it was. -/
theorem Reconcile_converged (r : MyAppReconciler) (req : Key) (w : World) (app : MyApp)
    (d : Deployment) (s : Service) (c : Condition)
    (hget : lookup MyApp.key req w.myapps = some app)
    (hdel : app.DeletionTimestamp = none)
    (hfin : ContainsFinalizer app MyAppFinalizer = true)
    (hc : FindStatusCondition app.Status.Conditions "Available" = some c)
    (hcs : c.Status = .ConditionTrue)
    (hcr : c.Reason = "ReSize")
    (hcm : c.Message = (availableCondition app app.Spec.Size).Message)
    (hdep : lookup Deployment.key req w.deployments = some d)
    (hrep : d.Spec.Replicas = app.Spec.Size)
    (hsvc : lookup Service.key ⟨app.Namespace, app.Name ++ "-svc"⟩ w.services = some s)
    (hcalm : w.calm) :
    (Reconcile r req w).1 = (Result.empty, none)
    ∧ writes (Reconcile r req w).2 = writes w ++ [Call.statusUpdate app none]
    ∧ (∀ k, lookup MyApp.key k (Reconcile r req w).2.myapps = lookup MyApp.key k w.myapps)
    ∧ (Reconcile r req w).2.deployments = w.deployments
    ∧ (Reconcile r req w).2.services = w.services := by
  have hkey : app.key = req := lookup_key MyApp.key hget
  have hne : app.Status.Conditions.isEmpty = false := by
    cases hcl : app.Status.Conditions with
    | nil => rw [hcl] at hc; simp [FindStatusCondition] at hc
    | cons => rfl
  have hset : ∀ now, app.setCondition now (availableCondition app app.Spec.Size) = app :=
    fun now => setCondition_same app now _ c hc hcs hcr hcm
  have hdt : app.DeletionTimestamp.isSome = false := by rw [hdel]; rfl
  have hst : app.withStatus app.Status = app := rfl
  have hrun : Reconcile r req w = ((Result.empty, none),
      ((((w.advance (.get .MyApp req none)).advance (.get .Deployment req none)).advance
        (.statusUpdate app none)).withMyapps (put MyApp.key app w.myapps)).advance
        (.get .Service ⟨app.Namespace, app.Name ++ "-svc"⟩ none)) := by
    unfold Reconcile
    rw [GetMyApp_calm hcalm hget]
    simp only [hne, Bool.false_eq_true, if_false]
    unfold reconcileFinalizer
    simp only [hfin, Bool.not_true, Bool.false_eq_true, if_false]
    unfold reconcileMarked
    simp only [hdt, Bool.false_eq_true, if_false]
    unfold reconcileDeployment
    rw [GetDeployment_calm (calm_advance hcalm _) (by simpa using hdep)]
    simp only [hrep, ne_eq, not_true_eq_false, if_false, hset]
    rw [StatusUpdate_calm (s := app) (calm_advance (calm_advance hcalm _) _)
      (by simpa [hkey] using hget)]
    simp only [hst, advance_myapps]
    unfold reconcileService
    rw [GetService_calm (s := s)
      (calm_withMyapps (calm_advance (calm_advance (calm_advance hcalm _) _) _) _)
      (by simpa using hsvc)]
  rw [hrun]
  refine ⟨rfl, ?_, ?_, by simp, by simp⟩
  · simp [writes, List.filter_append, Call.isWrite]
  · intro k
    simp only [advance_myapps, withMyapps_myapps]
    exact lookup_put_self MyApp.key (by rw [hkey]; exact hget) k

/-- C5 (amended), at the converged store of `demo`. -/
theorem Reconcile_converged_witness :
    (Reconcile demoReconciler demoKey convergedWorld).1 = (Result.empty, none)
    ∧ writes (Reconcile demoReconciler demoKey convergedWorld).2
        = writes convergedWorld ++ [Call.statusUpdate demoActive none]
    ∧ (∀ k, lookup MyApp.key k (Reconcile demoReconciler demoKey convergedWorld).2.myapps
        = lookup MyApp.key k convergedWorld.myapps)
    ∧ (Reconcile demoReconciler demoKey convergedWorld).2.deployments
        = convergedWorld.deployments
    ∧ (Reconcile demoReconciler demoKey convergedWorld).2.services
        = convergedWorld.services :=
  Reconcile_converged demoReconciler demoKey convergedWorld demoActive demoDeployment
    demoService demoAvailable (by decide) (by decide) (by decide) (by decide) (by decide)
    (by decide) (by decide) (by decide) (by decide) (by decide) (by decide)

/-! ## C10: the first pass creates the Deployment -/

/-- C10 (counterexample): `demo` is not under deletion, its Deployment is
absent, every call goes through, and the reconciler's scheme has no kind for
MyApp: the owner reference cannot be set, nothing is created, and the pass
returns that error. -/
theorem Reconcile_no_create_without_kind :
    lookup MyApp.key demoKey bareWorld.myapps = some demoActive
    ∧ demoActive.DeletionTimestamp = none
    ∧ lookup Deployment.key demoKey bareWorld.deployments = none
    ∧ bareWorld.calm
    ∧ (Reconcile bareReconciler demoKey bareWorld).1 = (Result.empty, some .NoKindRegistered)
    ∧ (Reconcile bareReconciler demoKey bareWorld).2.log.filter Call.isCreate = []
    ∧ (Reconcile bareReconciler demoKey bareWorld).2.deployments = []
    ∧ (Reconcile bareReconciler demoKey bareWorld).2.log.map
        (fun c => match c with
          | .get _ _ e => e
          | .create _ e => e
          | .update _ e => e
          | .statusUpdate _ e => e
          | .delete _ e => e)
        = [none, some .NotFound, none] := by
  decide

theorem SetControllerReference_sameAs {m app : MyApp} (h : m.sameAs app)
    (refs : List OwnerReference) (scheme : Scheme) :
    SetControllerReference m refs scheme = SetControllerReference app refs scheme := by
  obtain ⟨h1, _, h3, _, _⟩ := h
  unfold SetControllerReference
  rw [h1, h3]

theorem reconcileDeployment_creates (r : MyAppReconciler) (req : Key) (m : MyApp) (w : World)
    (hkey : m.key = req) (hcalm : w.calm)
    (habs : lookup Deployment.key req w.deployments = none)
    (hs : ∃ refs, SetControllerReference m [] r.Scheme = .ok refs) :
    ∃ dep, deploymentForMyApp r m = .ok dep
      ∧ reconcileDeployment r req m w
        = (({ Requeue := false, RequeueAfter := Minute }, none),
           ((w.advance (.get .Deployment req (some .NotFound))).advance
              (.create (.deployment dep) none)).withDeployments
              (put Deployment.key dep w.deployments)) := by
  obtain ⟨refs, hrefs⟩ := hs
  have hdep : ∃ dep, deploymentForMyApp r m = .ok dep := by
    simp [deploymentForMyApp, hrefs]
  obtain ⟨dep, hdep⟩ := hdep
  obtain ⟨hn, hns, _, _⟩ := deploymentForMyApp_ok hdep
  have hdk : dep.key = req := by
    rw [← hkey]
    simp [Deployment.key, MyApp.key, hn, hns]
  refine ⟨dep, hdep, ?_⟩
  unfold reconcileDeployment
  rw [GetDeployment_calm_absent hcalm habs]
  simp only [IsNotFound, if_true, hdep]
  rw [CreateDeployment_calm (calm_advance hcalm _) (by rw [hdk]; simpa using habs)]
  simp

/-- C10 (amended): for a MyApp in the store, not under deletion, whose
Deployment is absent, if every store call of the pass goes through and the
owner reference can be set on the new Deployment, `Reconcile` creates a
Deployment with the MyApp's name and namespace, `Spec.Size` replicas and the
image `Spec.Image`; the store holds it after the pass; the pass returns
`RequeueAfter` one minute with a nil error, creates nothing else, and makes no
call on the Service. -/
theorem Reconcile_creates_deployment (r : MyAppReconciler) (req : Key) (w : World)
    (app : MyApp)
    (hget : lookup MyApp.key req w.myapps = some app)
    (hdel : app.DeletionTimestamp = none)
    (habs : lookup Deployment.key req w.deployments = none)
    (hcalm : w.calm)
    (hs : ∃ refs, SetControllerReference app [] r.Scheme = .ok refs)
    (hlog : w.log = []) :
    ∃ dep, dep.Name = app.Name ∧ dep.Namespace = app.Namespace
      ∧ dep.Spec.Replicas = app.Spec.Size
      ∧ dep.Spec.Template.Containers.map (fun c => c.Image) = [app.Spec.Image]
      ∧ (Reconcile r req w).1 = ({ Requeue := false, RequeueAfter := Minute }, none)
      ∧ (Reconcile r req w).2.log.filter Call.isCreate = [Call.create (.deployment dep) none]
      ∧ lookup Deployment.key req (Reconcile r req w).2.deployments = some dep
      ∧ (∀ c ∈ (Reconcile r req w).2.log, c.onService = false)
      ∧ (Reconcile r req w).2.services = w.services := by
  obtain ⟨pre, hpre, hcases⟩ := Reconcile_prelude r req w app hget
  rcases hcases with ⟨e, w', _, _, hnc, _⟩ |
    ⟨m, w', he, hl, hlk, _, hsame, _, hd, hsv, _, hc'⟩
  · exact absurd hcalm hnc
  · have hmd : m.DeletionTimestamp.isSome = false := by rw [hsame.2.2.2.2, hdel]; rfl
    have hmk : m.key = req := lookup_key MyApp.key hlk
    obtain ⟨dep, hdep, hrun⟩ := reconcileDeployment_creates r req m w' hmk (hc' hcalm)
      (by rw [hd]; exact habs) (by rw [SetControllerReference_sameAs hsame]; exact hs)
    obtain ⟨hn, hns, hrep, himg⟩ := deploymentForMyApp_ok hdep
    obtain ⟨h1, h2, _, h4, _⟩ := hsame
    have hdk : dep.key = req := by
      rw [← hmk]
      simp [Deployment.key, MyApp.key, hn, hns]
    rw [he]
    unfold reconcileMarked
    simp only [hmd, Bool.false_eq_true, if_false]
    rw [hrun]
    refine ⟨dep, by rw [hn, h1], by rw [hns, h2], by rw [hrep, h4], by rw [himg, h4], rfl,
      ?_, ?_, ?_, by simp [hsv]⟩
    · have hpc : pre.filter Call.isCreate = [] := by
        rw [List.filter_eq_nil_iff]
        intro c hc
        rw [(isPrelude_quiet (hpre c hc)).2.2.2.1]
        simp
      simp [hl, hlog, List.filter_append, hpc, Call.isCreate, List.filter_cons]
    · have := lookup_put_same Deployment.key dep w'.deployments
      rw [hdk] at this
      simpa using this
    · intro c hc
      simp only [withDeployments_log, advance_log, hl, hlog, List.nil_append,
        List.mem_append, List.mem_singleton] at hc
      rcases hc with (hc | rfl) | rfl
      · exact (isPrelude_quiet (hpre c hc)).1
      · rfl
      · rfl

/-- C10 (amended), at `demo` with no managed object: the Deployment `demo` is
created with 2 replicas and the image `nginx:1.25`. -/
theorem Reconcile_creates_deployment_witness :
    ∃ dep, dep.Name = "demo" ∧ dep.Namespace = "default"
      ∧ dep.Spec.Replicas = 2
      ∧ dep.Spec.Template.Containers.map (fun c => c.Image) = ["nginx:1.25"]
      ∧ (Reconcile demoReconciler demoKey bareWorld).1
          = ({ Requeue := false, RequeueAfter := Minute }, none)
      ∧ (Reconcile demoReconciler demoKey bareWorld).2.log.filter Call.isCreate
          = [Call.create (.deployment dep) none]
      ∧ lookup Deployment.key demoKey (Reconcile demoReconciler demoKey bareWorld).2.deployments
          = some dep
      ∧ (∀ c ∈ (Reconcile demoReconciler demoKey bareWorld).2.log, c.onService = false)
      ∧ (Reconcile demoReconciler demoKey bareWorld).2.services = bareWorld.services :=
  Reconcile_creates_deployment demoReconciler demoKey bareWorld demoActive (by decide)
    (by decide) (by decide) (by decide) ⟨[demoOwner], by decide⟩ (by decide)

/-! ## C4: a failed delete keeps the finalizer -/

theorem isFailedDelete_of_isDelete {c : Call} (h : c.isDelete = false) :
    c.isFailedDelete = false := by
  cases c <;> simp_all [Call.isDelete, Call.isFailedDelete]

/-- C4: for a MyApp with a deletion timestamp (in the Terminating state the
finalizer is present; the theorem does not need that), in a pass whose trace
starts empty, if a `Delete` issued in the pass returned an error then
`Reconcile` returns an error, no update of the MyApp is sent without the
finalizer, and the MyApp in the store still carries the finalizer after the
pass. -/
theorem Reconcile_delete_error_keeps_finalizer (r : MyAppReconciler) (req : Key) (w : World)
    (app : MyApp)
    (hget : lookup MyApp.key req w.myapps = some app)
    (hdel : app.DeletionTimestamp.isSome = true)
    (hlog : w.log = [])
    (hfail : ∃ c ∈ (Reconcile r req w).2.log, c.isFailedDelete = true) :
    (Reconcile r req w).1.2 ≠ none
    ∧ (∀ c ∈ (Reconcile r req w).2.log, c.removesFinalizer = false)
    ∧ ∃ a, lookup MyApp.key req (Reconcile r req w).2.myapps = some a
        ∧ ContainsFinalizer a MyAppFinalizer = true := by
  obtain ⟨pre, hpre, hcases⟩ := Reconcile_prelude r req w app hget
  have hprefd : ∀ c ∈ pre, c.isFailedDelete = false := fun c hc =>
    isFailedDelete_of_isDelete (isPrelude_quiet (hpre c hc)).2.2.1
  rcases hcases with ⟨e, w', he, hl, _⟩ | ⟨m, w', he, hl, hlk, hmfin, hsame, _⟩
  · rw [he] at hfail
    simp only [hl, hlog, List.nil_append] at hfail
    exact no_failed_delete hprefd hfail
  · have hmd : m.DeletionTimestamp.isSome = true := by rw [hsame.2.2.2.2]; exact hdel
    obtain ⟨new, hnew, hspec⟩ := reconcileDeletion_delete_error req m w' hlk hmfin
    rw [he] at hfail ⊢
    unfold reconcileMarked at hfail ⊢
    simp only [hmd, if_true] at hfail ⊢
    rw [hnew, hl, hlog, List.nil_append] at hfail
    obtain ⟨c, hc, hp⟩ := hfail
    rcases List.mem_append.mp hc with hc | hc
    · rw [hprefd c hc] at hp
      cases hp
    · obtain ⟨h1, h2, h3⟩ := hspec ⟨c, hc, hp⟩
      refine ⟨h1, ?_, h3⟩
      rw [hnew, hl, hlog, List.nil_append]
      intro c' hc'
      rcases List.mem_append.mp hc' with hc' | hc'
      · exact (isPrelude_quiet (hpre c' hc')).2.2.2.2.1
      · exact h2 c' hc'

/-- C4, at the terminating `demo` when the deletion of its Deployment times
out: the pass returns that error and the stored MyApp keeps the finalizer. -/
theorem Reconcile_delete_error_keeps_finalizer_witness :
    (demoTerminating.DeletionTimestamp.isSome = true
      ∧ ContainsFinalizer demoTerminating MyAppFinalizer = true)
    ∧ (Reconcile demoReconciler demoKey deleteFailsWorld).1.2 ≠ none
    ∧ (∀ c ∈ (Reconcile demoReconciler demoKey deleteFailsWorld).2.log,
        c.removesFinalizer = false)
    ∧ ∃ a, lookup MyApp.key demoKey (Reconcile demoReconciler demoKey deleteFailsWorld).2.myapps
          = some a
        ∧ ContainsFinalizer a MyAppFinalizer = true :=
  ⟨by decide,
   Reconcile_delete_error_keeps_finalizer demoReconciler demoKey deleteFailsWorld
    demoTerminating (by decide) (by decide) (by decide)
    ⟨Call.delete (.deployment demoDeployment) (some .ServerTimeout), by decide, by decide⟩⟩

/-! ## C6: deletion without the finalizer -/

/-- C6 (evaluation): `demo` carries a deletion timestamp and not the
controller's finalizer (another controller's finalizer keeps it stored), and
its conditions are already set. The add-finalizer step has no deletion check:
the first write of the pass is an `Update` that adds the finalizer. On a store
that accepts it the cleanup runs (five writes, the Deployment is deleted) and
the finalizer is removed again before the pass returns the empty result; on a
store that refuses it the pass returns that error. The pass never ends at the
`no finalizer` return with no write. -/
theorem Reconcile_adds_finalizer_under_deletion :
    lookup MyApp.key demoKey foreignWorld.myapps = some demoForeign
    ∧ demoForeign.DeletionTimestamp = some 90
    ∧ ContainsFinalizer demoForeign MyAppFinalizer = false
    ∧ (writes (Reconcile demoReconciler demoKey foreignWorld).2).map
        (fun c => match c with
          | .update (.myapp a) e => ("update", a.Finalizers, e)
          | .delete (.deployment d) e => ("delete", [d.Name], e)
          | .statusUpdate a e => ("statusUpdate", a.Finalizers, e)
          | _ => ("", [], none))
      = [("update", ["other.io/finalizer", MyAppFinalizer], none),
         ("update", ["other.io/finalizer", MyAppFinalizer], none),
         ("delete", ["demo"], none),
         ("statusUpdate", ["other.io/finalizer", MyAppFinalizer], none),
         ("update", ["other.io/finalizer"], none)]
    ∧ (Reconcile demoReconciler demoKey foreignWorld).1 = (Result.empty, none)
    ∧ lookup Deployment.key demoKey
        (Reconcile demoReconciler demoKey foreignWorld).2.deployments = none
    ∧ writes (Reconcile demoReconciler demoKey foreignRefusedWorld).2
      = [Call.update
          (.myapp (demoForeign.withFinalizers ["other.io/finalizer", MyAppFinalizer]))
          (some .Forbidden)]
    ∧ (Reconcile demoReconciler demoKey foreignRefusedWorld).1
      = (Result.empty, some .Forbidden) := by
  decide

/-! ## C1: what the cleanup deletes -/

/-- C1 (evaluation): `demo` is in the Terminating state and the store holds
its Deployment `demo` and its Service `demo-svc`; every call goes through. The
pass returns the empty result with a nil error and the MyApp leaves the store,
the Deployment is gone, but the Service `demo-svc` is still in the store: the
only `Delete` issued is the Deployment's, and the only call on a Service is a
`Get` of the name `demosvc`, which is not found. -/
theorem Reconcile_finalization_leaves_service :
    lookup Deployment.key demoKey terminatingWorld.deployments = some demoDeployment
    ∧ lookup Service.key ⟨"default", "demo-svc"⟩ terminatingWorld.services = some demoService
    ∧ (serviceForMyApp demoReconciler demoTerminating).toOption = some demoService
    ∧ (Reconcile demoReconciler demoKey terminatingWorld).1 = (Result.empty, none)
    ∧ (Reconcile demoReconciler demoKey terminatingWorld).2.myapps = []
    ∧ lookup Deployment.key demoKey
        (Reconcile demoReconciler demoKey terminatingWorld).2.deployments = none
    ∧ lookup Service.key ⟨"default", "demo-svc"⟩
        (Reconcile demoReconciler demoKey terminatingWorld).2.services = some demoService
    ∧ (Reconcile demoReconciler demoKey terminatingWorld).2.log.filter Call.isDelete
        = [Call.delete (.deployment demoDeployment) none]
    ∧ (Reconcile demoReconciler demoKey terminatingWorld).2.log.filter Call.onService
        = [Call.get .Service ⟨"default", "demosvc"⟩ (some .NotFound)] := by
  decide

/-- C1 (evaluation, a Service named `demosvc` exists): the second `Delete` of
the cleanup is again the Deployment's and fails with NotFound; the pass returns
that error and no Service is deleted. -/
theorem Reconcile_finalization_deletes_deployment_twice :
    (Reconcile demoReconciler demoKey
      { terminatingWorld with
        services := [demoService, { demoService with Name := "demosvc" }] }).1
      = (Result.empty, some .NotFound)
    ∧ (Reconcile demoReconciler demoKey
      { terminatingWorld with
        services := [demoService, { demoService with Name := "demosvc" }] }).2.log.filter
        Call.isDelete
      = [Call.delete (.deployment demoDeployment) none,
         Call.delete (.deployment demoDeployment) (some .NotFound)] := by
  decide

/-! ## C2: the container port of the Deployment -/

/-- C2 (evaluation): for `demo`, whose only port is
`{port: 80, targetPort: 8080, nodePort: 30080}`, the Deployment built exposes
the one container port 30080, the nodePort, and not the targetPort 8080. -/
theorem deploymentForMyApp_containerPort_demo :
    demo.Spec.Ports = [{ Port := 80, TargetPort := .int 8080, NodePort := 30080 }]
    ∧ (deploymentForMyApp demoReconciler demo).toOption = some demoDeployment
    ∧ demoDeployment.Spec.Template.Containers.map (fun c => c.Ports) = [[⟨30080⟩]] := by
  decide

end MyAppController
